import Mathlib

/-!
Verification of the listing-ingestion engine of the harvestapi scraper SDK
(`packages/scraper/src/base/listing.scraper.ts`) and of the LinkedIn entry
points (`packages/scraper/src/linkedin/scraper.ts`).

The development shallowly embeds the TypeScript source:

* Pure record shapes (`ApiListResponse`, `ApiItemResponse`, options, the stats
  object) become Lean structures. Nested optional paths such as
  `pagination?.totalPages` and `user?.requestsConcurrency` are flattened into
  one `Option` field, which captures exactly the `a?.b?.c` access pattern.
* JavaScript truthiness on the string/number/option values the code actually
  tests is embedded by explicit helper functions (`jsTruthy`, `jsConc`, ...).
* `scrapePageItems` (the per-page item loop) is embedded twice, at two
  granularities that mirror the two ways the source runs:
  - `itemsLoop` is the sequential functional semantics of one page's loop
    (the loop body is straight-line code between `await`s, so its sequential
    semantics is exact for per-page claims);
  - the run-level small-step machine (`Step`) below additionally exposes every
    `await` of the whole run as a suspension point, so that concurrent
    interleavings of page workers, the store-open task and the orchestrator
    are all modelled. Atomic machine steps correspond exactly to the
    synchronous blocks between `await`s in the source.
* `createConcurrentQueues` is imported from `../utils`, which is not part of
  the provided sources; its admission discipline is modelled from the spec
  (§4.2): at most `n` submitted tasks run concurrently, a queued task is
  admitted only when a slot is free, and a submission resolves exactly when
  its task finishes.
-/

/-- Output backend, `options.outputType` (`'json' | 'sqlite'`). -/
inductive OutputType where
  | json
  | sqlite
deriving DecidableEq, Repr

/-- A short or detail record; the engine only ever inspects its `id` field
(`TItemShort extends { id: string }`, `TItemDetail extends { id: string }`). -/
structure Item where
  id : String
deriving DecidableEq, Repr

/-- `ApiListResponse` shape as used by the engine: `id`, `status`, `error`,
`elements`, `pagination.totalPages` (flattened), `user.requestsConcurrency`
(flattened). Absent fields are `none`. -/
structure ApiListResponse where
  id : Option String := none
  status : Option Int := none
  error : Option String := none
  elements : Option (List Item) := none
  totalPages : Option Nat := none
  requestsConcurrency : Option Nat := none
deriving DecidableEq, Repr

/-- `ApiItemResponse` shape as used by the item loop: `id`, `element`,
`status`, `error`, and the optional `skipped` marker. -/
structure ApiItemResponse where
  id : Option String := none
  element : Option Item := none
  status : Option Int := none
  error : Option String := none
  skipped : Option Bool := none
deriving DecidableEq, Repr

/-- The mutable `this.stats` object (without `requestsStartTime`, which only
feeds the requests-per-second log line). -/
structure Stats where
  pages : Nat := 0
  pagesSuccess : Nat := 0
  items : Nat := 0
  itemsSuccess : Nat := 0
  requests : Nat := 0
deriving DecidableEq, Repr

/-- The engine options consumed by `ListingScraper` (the recognized scalar
options; the fetch callbacks live in the run context / world instead). -/
structure ListingScraperOptions where
  outputType : Option OutputType := none
  maxPages : Option Nat := none
  scrapeDetails : Bool := false
  skipItemRequestsStats : Bool := false
  entityName : String := ""
deriving DecidableEq, Repr

/-- Effective output type: the constructor sets `outputType = 'sqlite'` when
the option is absent. -/
def effOutput (o : ListingScraperOptions) : OutputType :=
  o.outputType.getD OutputType.sqlite

/-- JavaScript truthiness of an optional string (`undefined`/`null` and `""`
are falsy). -/
def jsTruthy : Option String → Bool
  | some s => s ≠ ""
  | none => false

/-- JavaScript `a || b` on an optional string with a string default. -/
def jsOrStr : Option String → String → String
  | some s, d => if s = "" then d else s
  | none, d => d

/-- JavaScript `firstPage?.user?.requestsConcurrency || 1`. -/
def jsConc : Option Nat → Nat
  | some n => if n = 0 then 1 else n
  | none => 1

/-- The default quota error message used by both fetch paths. -/
def quotaMsg : String := "Request limit exceeded - upgrade your plan"

/-- JavaScript `result?.status === 402` for a list response. -/
def quotaList : Option ApiListResponse → Bool
  | some r => r.status = some 402
  | none => false

/-- JavaScript `itemDetails?.status === 402` for an item response. -/
def quotaItem : Option ApiItemResponse → Bool
  | some d => d.status = some 402
  | none => false

/-- JavaScript `itemDetails?.skipped` truthiness. -/
def jsSkipped : Option ApiItemResponse → Bool
  | some d => d.skipped = some true
  | none => false

/-- JavaScript `itemDetails?.element && itemDetails.id`: a resolved item is
successful iff its `element` is present (objects are truthy) and its `id` is
a non-empty string. -/
def itemSuccess : Option ApiItemResponse → Bool
  | some d => d.element.isSome && jsTruthy d.id
  | none => false

/-- JavaScript `result.error || 'Request limit exceeded - upgrade your plan'`
for the list quota path. -/
def listErrOr (r : Option ApiListResponse) : String :=
  jsOrStr (r.bind ApiListResponse.error) quotaMsg

/-- JavaScript `itemDetails?.error || 'Request limit exceeded - upgrade your
plan'` for the item quota path. -/
def itemErrOr (d : Option ApiItemResponse) : String :=
  jsOrStr (d.bind ApiItemResponse.error) quotaMsg

/-- Context of one run of the item loop: the options, the `fetchItem`
collaborator (`none` models both a synchronous `null` return and a rejected
promise caught to `null`), and whether an sqlite insert for a given element
succeeds (`insertSqliteItem` resolving vs. rejecting). -/
structure RunCtx where
  opts : ListingScraperOptions
  fetchItem : Item → Option ApiItemResponse
  writeOk : Item → Bool

/-- The per-run mutable state touched by the item loop: stats, terminal flag,
error slot, the in-memory json accumulator, and the rows written to sqlite. -/
structure PState where
  stats : Stats := {}
  done : Bool := false
  error : Option String := none
  inMemoryItems : List Item := []
  written : List Item := []
deriving DecidableEq, Repr

/-- `onItemScraped` (serialized store write): push to the in-memory list for
json output; insert into sqlite for sqlite output, with a failed insert
caught and logged (the item is dropped, nothing else changes). -/
def onItemScraped (c : RunCtx) (s : PState) (e : Item) : PState :=
  let s :=
    if effOutput c.opts = OutputType.json then
      { s with inMemoryItems := s.inMemoryItems ++ [e] }
    else s
  if effOutput c.opts = OutputType.sqlite then
    if c.writeOk e then { s with written := s.written ++ [e] } else s
  else s

/-- The synthesized `itemDetails` of the `scrapeDetails == false` branch:
`{ id: item?.id, element: item, status: list.status, error: list.error }`
(`query` is also mirrored in the source but never read afterwards). -/
def synthDetails (lst : ApiListResponse) (item : Item) : ApiItemResponse :=
  { id := some item.id, element := some item, status := lst.status,
    error := lst.error }

/-- Body of the `for (const item of list.elements)` loop of
`scrapePageItems`, processing the remaining items in order and accumulating
the resolved elements (`details`). This is the sequential semantics of the
loop; the run-level machine below refines it into per-`await` steps. -/
def itemsLoop (c : RunCtx) (lst : ApiListResponse) :
    List Item → PState → List Item → PState × List Item
  | [], s, acc => (s, acc)
  | item :: rest, s, acc =>
    let itemDetails : Option ApiItemResponse :=
      if c.opts.scrapeDetails then c.fetchItem item
      else some (synthDetails lst item)
    if c.opts.scrapeDetails ∧ quotaItem itemDetails then
      ({ s with done := true, error := some (itemErrOr itemDetails) }, acc)
    else
      let st := { s.stats with items := s.stats.items + 1 }
      let st :=
        if c.opts.scrapeDetails ∧ ¬ jsSkipped itemDetails then
          { st with requests := st.requests + 1 }
        else st
      if itemSuccess itemDetails then
        let st := { st with itemsSuccess := st.itemsSuccess + 1 }
        let e := (itemDetails.bind ApiItemResponse.element).getD item
        let s' := onItemScraped c { s with stats := st } e
        itemsLoop c lst rest s' (acc ++ [e])
      else
        itemsLoop c lst rest { s with stats := st } acc

/-- `scrapePageItems`: returns `[]` immediately when `list?.elements` is
absent, otherwise runs the item loop. -/
def scrapePageItems (c : RunCtx) (lst : ApiListResponse) (s : PState) :
    PState × List Item :=
  match lst.elements with
  | none => (s, [])
  | some es => itemsLoop c lst es s []

/-- Caller-supplied options of the LinkedIn `scrape*` entry points (the
`...options` object that is spread into the `ListingScraper` constructor
argument; a `none` field models an absent property, which the spread does
not introduce). -/
structure ScrapeCallerOptions where
  outputType : Option OutputType := none
  maxPages : Option Nat := none
  scrapeDetails : Option Bool := none
  skipItemRequestsStats : Option Bool := none
deriving DecidableEq, Repr

/-- Result of spreading the caller options into an object literal
(`{ fetchList, fetchItem, ...options }`): every recognized scalar option is
taken from the caller; boolean options read by truthiness default to
`false` when absent. -/
def spreadOptions (o : ScrapeCallerOptions) : ListingScraperOptions :=
  { outputType := o.outputType,
    maxPages := o.maxPages,
    scrapeDetails := o.scrapeDetails.getD false,
    skipItemRequestsStats := o.skipItemRequestsStats.getD false,
    entityName := "" }

/-- Options object built by `scrapeJobs`: `{ ...options, maxPages: 40,
entityName: 'jobs' }` — the literals written after the spread win. -/
def scrapeJobsOptions (o : ScrapeCallerOptions) : ListingScraperOptions :=
  { spreadOptions o with maxPages := some 40, entityName := "jobs" }

/-- Options object built by `scrapeCompanies`: `{ ...options, maxPages: 100,
entityName: 'companies' }`. -/
def scrapeCompaniesOptions (o : ScrapeCallerOptions) : ListingScraperOptions :=
  { spreadOptions o with maxPages := some 100, entityName := "companies" }

/-- Options object built by `scrapeProfiles`: `{ ...options, maxPages: 100,
entityName: 'profiles' }`. -/
def scrapeProfilesOptions (o : ScrapeCallerOptions) : ListingScraperOptions :=
  { spreadOptions o with maxPages := some 100, entityName := "profiles" }

/-- Options object built by `scrapePosts`: `{ ...options, maxPages: 100,
entityName: 'posts', skipItemRequestsStats: true }`. -/
def scrapePostsOptions (o : ScrapeCallerOptions) : ListingScraperOptions :=
  { spreadOptions o with
    maxPages := some 100
    entityName := "posts"
    skipItemRequestsStats := true }

/-- Program counter of one page task (`scrapePage` coroutine). A task is
`queued` until the concurrency queue admits it; the `awaiting*` states are
the suspension points of `scrapePage`/`scrapePageItems` (`await fetchList`,
`await fetchItem`, `await onItemScraped`); the closure data retained across
a suspension (`list`, remaining items) is stored in the constructor. -/
inductive TaskPC where
  | queued (prefetched : Option ApiListResponse)
  | awaitingList
  | awaitingItem (lst : ApiListResponse) (rem : List Item)
  | awaitingWrite (lst : ApiListResponse) (rem : List Item)
  | finished
deriving DecidableEq, Repr

/-- Program counter of the orchestrator (`scrapeStart`): before the first
fetch, awaiting the first page, awaiting `Promise.all` of the page tasks, or
returned (carrying the returned value: `none` models the bare `return;` of
the nothing-to-scrape path, `some stats` the final `return this.stats`). -/
inductive OrchPC where
  | start
  | awaitFirst
  | awaitAll
  | returned (result : Option Stats)
deriving DecidableEq, Repr

/-- Run-level machine state: the orchestrator pc, the shared mutable fields
of the `ListingScraper` instance (`stats`, `done`, `error`), the discovered
concurrency bound of the page queue, the page tasks, whether the sqlite
open promise is still pending, and a ghost counter of issued `fetchList`
calls. -/
structure MState where
  orch : OrchPC := OrchPC.start
  stats : Stats := {}
  done : Bool := false
  error : Option String := none
  conc : Nat := 1
  tasks : List (Nat × TaskPC) := []
  storePending : Bool := false
  fetchCalls : Nat := 0
deriving DecidableEq, Repr

/-- The external collaborators of one run: the list fetch per page number and
the item fetch per short item (`none` models a `null`/rejected-and-caught
result), plus whether the sqlite database open succeeds. Responses are
fixed per input, which is sound because each page is fetched at most once. -/
structure World where
  listResp : Nat → Option ApiListResponse
  itemResp : Item → Option ApiItemResponse
  storeInitOk : Bool

/-- Observable event of a machine step: which network fetch, if any, the
step issues. -/
inductive Ev where
  | fetchPage (page : Nat)
  | fetchItem (item : Item)
  | tau
deriving DecidableEq, Repr

/-- Post-`await` bookkeeping of `fetchPage` on a non-402 result:
`stats.pages++; stats.requests++; if (result?.id) stats.pagesSuccess++`. -/
def bumpPages (r : Option ApiListResponse) (st : Stats) : Stats :=
  let st := { st with pages := st.pages + 1, requests := st.requests + 1 }
  if jsTruthy (r.bind ApiListResponse.id) then
    { st with pagesSuccess := st.pagesSuccess + 1 }
  else st

/-- The `scrapeDetails == false` item loop runs synchronously (no `await`)
until the first successful item, whose store write suspends at
`await onItemScraped`; this helper processes items up to that point,
returning the updated stats and `some rest` (items still to process after
the write resumes) or `none` when the page's loop finished. -/
def runNoDetailItems (lst : ApiListResponse) :
    Stats → List Item → Stats × Option (List Item)
  | st, [] => (st, none)
  | st, item :: rest =>
    let d := some (synthDetails lst item)
    let st1 := { st with items := st.items + 1 }
    if itemSuccess d then
      ({ st1 with itemsSuccess := st1.itemsSuccess + 1 }, some rest)
    else runNoDetailItems lst st1 rest

/-- Entry of a page's item phase, the synchronous block from
`if (list?.elements)` up to the first suspension of `scrapePageItems`:
absent or exhausted elements finish the task; with `scrapeDetails` the first
item's detail fetch is issued; without it, items are processed synchronously
up to the first store write. -/
def beginItems (o : ListingScraperOptions) (lst : ApiListResponse)
    (st : Stats) : Stats × TaskPC × Ev :=
  match lst.elements with
  | none => (st, TaskPC.finished, Ev.tau)
  | some es =>
    if o.scrapeDetails then
      match es with
      | [] => (st, TaskPC.finished, Ev.tau)
      | i :: _ => (st, TaskPC.awaitingItem lst es, Ev.fetchItem i)
    else
      match runNoDetailItems lst st es with
      | (st1, some rest) => (st1, TaskPC.awaitingWrite lst rest, Ev.tau)
      | (st1, none) => (st1, TaskPC.finished, Ev.tau)

/-- The `fetchPage({ page: 1 })` result as `scrapeStart` sees it (`null`
when the response is a 402, which `fetchPage` swallows). -/
def firstPageResult (w : World) : Option ApiListResponse :=
  if quotaList (w.listResp 1) then none else w.listResp 1

/-- `totalPages` after the `maxPages` clamp: `firstPage?.pagination?.
totalPages || 0`, then `if (maxPages && totalPages > maxPages) totalPages =
maxPages` (a zero `maxPages` is falsy and does not clamp). -/
def clampedTotal (o : ListingScraperOptions) (res : Option ApiListResponse) :
    Nat :=
  let tp := (res.bind ApiListResponse.totalPages).getD 0
  match o.maxPages with
  | some m => if m ≠ 0 ∧ m < tp then m else tp
  | none => tp

/-- The submission loop `for (let page = 1; page <= totalPages; page++)`:
page 1 is submitted with the already-fetched list, later pages without. -/
def scheduleTasks (res : ApiListResponse) (tp : Nat) : List (Nat × TaskPC) :=
  (1, TaskPC.queued (some res)) ::
    (List.range' 2 (tp - 1)).map (fun p => (p, TaskPC.queued none))

/-- Replace the pc of the task singled out by a `pre ++ task :: post`
decomposition of the task list. -/
def setTask (s : MState) (pre post : List (Nat × TaskPC)) (p : Nat)
    (pc : TaskPC) : MState :=
  { s with tasks := pre ++ (p, pc) :: post }

/-- The synchronous block of `scrapeStart` after `await this.fetchPage({page:
1})` resolves: the 402/stats bookkeeping of `fetchPage`, the `totalPages`
discovery and clamp, the `!firstPage || !totalPages` early return (which
sets `done` and returns no stats), and otherwise the queue construction,
the stats reset (`pages = 1; pagesSuccess = 1`), the sqlite open kick-off
and the submission of one task per page. -/
def afterFirstPage (w : World) (o : ListingScraperOptions) (s : MState) :
    MState :=
  let r := w.listResp 1
  let q := quotaList r
  let res := firstPageResult w
  let st := if q then s.stats else bumpPages r s.stats
  let e := if q then some (listErrOr r) else s.error
  let tp := clampedTotal o res
  match res with
  | none =>
    { s with
      stats := st
      done := true
      error := e
      orch := OrchPC.returned none }
  | some lst =>
    if tp = 0 then
      { s with
        stats := st
        done := true
        error := e
        orch := OrchPC.returned none }
    else
      { s with
        stats := { st with pages := 1, pagesSuccess := 1 }
        error := e
        conc := jsConc lst.requestsConcurrency
        storePending := effOutput o = OutputType.sqlite
        tasks := scheduleTasks lst tp
        orch := OrchPC.awaitAll }

/-- Resolution of `createSqliteDatabase()`: on failure the `catch` block
records the error and sets the terminal flag. -/
def applyStore (w : World) (s : MState) : MState :=
  if w.storeInitOk then { s with storePending := false }
  else
    { s with
      storePending := false
      done := true
      error := some "Error creating SQLite database:" }

/-- Admission of the page-1 task (its list was prefetched): `scrapePage`
runs synchronously through the `done` check (false at admission, enforced by
the step guard) into the item phase. -/
def applyAdmitPre (o : ListingScraperOptions) (s : MState)
    (pre post : List (Nat × TaskPC)) (p : Nat) (lst : ApiListResponse) :
    MState × Ev :=
  let (st, pc, ev) := beginItems o lst s.stats
  ({ setTask s pre post p pc with stats := st }, ev)

/-- The synchronous block after `await this.fetchPage({ page })` resolves in
a page task: `fetchPage`'s 402/stats bookkeeping, then `if (this.done)
return;`, then entry into the item phase when the list has elements. -/
def applyListResume (w : World) (o : ListingScraperOptions) (s : MState)
    (pre post : List (Nat × TaskPC)) (p : Nat) : MState × Ev :=
  let r := w.listResp p
  let q := quotaList r
  let st := if q then s.stats else bumpPages r s.stats
  let d := s.done || q
  let e := if q then some (listErrOr r) else s.error
  if d then
    ({ setTask s pre post p TaskPC.finished with
       stats := st
       done := d
       error := e }, Ev.tau)
  else
    match r with
    | none =>
      ({ setTask s pre post p TaskPC.finished with
         stats := st
         done := d
         error := e }, Ev.tau)
    | some lst =>
      let (st2, pc, ev) := beginItems o lst st
      ({ setTask s pre post p pc with
         stats := st2
         done := d
         error := e }, ev)

/-- The synchronous block after `await fetchItem(...)` resolves for the head
of `rem`: the 402 early return (sets `done`, records the error, abandons the
page), otherwise `items++`, the request count guarded by `scrapeDetails &&
!itemDetails?.skipped`, and on success `itemsSuccess++` followed by the
store-write suspension; an unsuccessful item falls through to the next
iteration, which issues the next detail fetch with no `done` check. -/
def applyItemResume (w : World) (o : ListingScraperOptions) (s : MState)
    (pre post : List (Nat × TaskPC)) (p : Nat) (lst : ApiListResponse) :
    List Item → MState × Ev
  | [] => (setTask s pre post p TaskPC.finished, Ev.tau)
  | item :: rest =>
    let d := w.itemResp item
    if quotaItem d then
      ({ setTask s pre post p TaskPC.finished with
         done := true
         error := some (itemErrOr d) }, Ev.tau)
    else
      let st := { s.stats with items := s.stats.items + 1 }
      let st :=
        if o.scrapeDetails ∧ ¬ jsSkipped d then
          { st with requests := st.requests + 1 }
        else st
      if itemSuccess d then
        ({ setTask s pre post p (TaskPC.awaitingWrite lst rest) with
            stats := { st with itemsSuccess := st.itemsSuccess + 1 } },
          Ev.tau)
      else
        match rest with
        | [] => ({ setTask s pre post p TaskPC.finished with stats := st },
            Ev.tau)
        | j :: _ =>
          ({ setTask s pre post p (TaskPC.awaitingItem lst rest) with
              stats := st }, Ev.fetchItem j)

/-- The synchronous block after `await this.onItemScraped(...)` resolves:
the loop continues with the remaining items — with `scrapeDetails` the next
detail fetch is issued immediately (again with no `done` check), without it
the synchronous no-detail processing resumes. -/
def applyWriteResume (o : ListingScraperOptions) (s : MState)
    (pre post : List (Nat × TaskPC)) (p : Nat) (lst : ApiListResponse)
    (rem : List Item) : MState × Ev :=
  if o.scrapeDetails then
    match rem with
    | [] => (setTask s pre post p TaskPC.finished, Ev.tau)
    | j :: _ =>
      (setTask s pre post p (TaskPC.awaitingItem lst rem), Ev.fetchItem j)
  else
    match runNoDetailItems lst s.stats rem with
    | (st, some rest) =>
      ({ setTask s pre post p (TaskPC.awaitingWrite lst rest) with
          stats := st }, Ev.tau)
    | (st, none) =>
      ({ setTask s pre post p TaskPC.finished with stats := st }, Ev.tau)

/-- Whether a task occupies a worker slot of the page queue (it has been
admitted and has not finished). -/
def taskActive : TaskPC → Bool
  | TaskPC.queued _ => false
  | TaskPC.finished => false
  | _ => true

/-- Number of page tasks currently in flight. -/
def inflight (s : MState) : Nat :=
  s.tasks.countP (fun t => taskActive t.2)

/-- The small-step transition relation of one run of `scrapeStart`. Each
constructor is one synchronous block of the source between two `await`s:
the orchestrator's first fetch and its continuation, the sqlite-open
resolution, the queue admissions (guarded by a free worker slot, modelled
from the spec's §4.2 contract for `createConcurrentQueues`), the three task
resume blocks, and the `Promise.all` return. The event records the network
fetch a step issues, if any. -/
inductive Step (w : World) (o : ListingScraperOptions) :
    MState → Ev → MState → Prop where
  | ostart (s : MState) (h : s.orch = OrchPC.start) :
      Step w o s (Ev.fetchPage 1)
        { s with orch := OrchPC.awaitFirst, fetchCalls := s.fetchCalls + 1 }
  | ofirst (s : MState) (h : s.orch = OrchPC.awaitFirst) :
      Step w o s Ev.tau (afterFirstPage w o s)
  | storeResolve (s : MState) (h : s.storePending = true) :
      Step w o s Ev.tau (applyStore w s)
  | admitDone (s : MState) (pre post : List (Nat × TaskPC)) (p : Nat)
      (pf : Option ApiListResponse)
      (ht : s.tasks = pre ++ (p, TaskPC.queued pf) :: post)
      (hd : s.done = true) (hs : inflight s < s.conc) :
      Step w o s Ev.tau (setTask s pre post p TaskPC.finished)
  | admitFetch (s : MState) (pre post : List (Nat × TaskPC)) (p : Nat)
      (ht : s.tasks = pre ++ (p, TaskPC.queued none) :: post)
      (hd : s.done = false) (hs : inflight s < s.conc) :
      Step w o s (Ev.fetchPage p)
        { setTask s pre post p TaskPC.awaitingList with
          fetchCalls := s.fetchCalls + 1 }
  | admitPre (s : MState) (pre post : List (Nat × TaskPC)) (p : Nat)
      (lst : ApiListResponse)
      (ht : s.tasks = pre ++ (p, TaskPC.queued (some lst)) :: post)
      (hd : s.done = false) (hs : inflight s < s.conc) :
      Step w o s (applyAdmitPre o s pre post p lst).2
        (applyAdmitPre o s pre post p lst).1
  | listResume (s : MState) (pre post : List (Nat × TaskPC)) (p : Nat)
      (ht : s.tasks = pre ++ (p, TaskPC.awaitingList) :: post) :
      Step w o s (applyListResume w o s pre post p).2
        (applyListResume w o s pre post p).1
  | itemResume (s : MState) (pre post : List (Nat × TaskPC)) (p : Nat)
      (lst : ApiListResponse) (rem : List Item)
      (ht : s.tasks = pre ++ (p, TaskPC.awaitingItem lst rem) :: post) :
      Step w o s (applyItemResume w o s pre post p lst rem).2
        (applyItemResume w o s pre post p lst rem).1
  | writeResume (s : MState) (pre post : List (Nat × TaskPC)) (p : Nat)
      (lst : ApiListResponse) (rem : List Item)
      (ht : s.tasks = pre ++ (p, TaskPC.awaitingWrite lst rem) :: post) :
      Step w o s (applyWriteResume o s pre post p lst rem).2
        (applyWriteResume o s pre post p lst rem).1
  | oreturn (s : MState) (h : s.orch = OrchPC.awaitAll)
      (hall : ∀ t ∈ s.tasks, t.2 = TaskPC.finished) :
      Step w o s Ev.tau { s with orch := OrchPC.returned (some s.stats) }

/-- The state in which `scrapeStart` begins. -/
def initState : MState := {}

/-- States reachable during a run of `scrapeStart` against world `w` with
options `o`. -/
inductive Reach (w : World) (o : ListingScraperOptions) : MState → Prop where
  | init : Reach w o initState
  | next {s s' : MState} {ev : Ev} (hr : Reach w o s)
      (hs : Step w o s ev s') : Reach w o s'


/-- One non-quota iteration of the item loop (the state and accumulator the
loop carries into the next iteration): the stats bookkeeping, and on success
the store write and the `details.push`. -/
def itemStep (c : RunCtx) (lst : ApiListResponse) (x : Item) (s : PState)
    (acc : List Item) : PState × List Item :=
  let itemDetails : Option ApiItemResponse :=
    if c.opts.scrapeDetails then c.fetchItem x else some (synthDetails lst x)
  let st := { s.stats with items := s.stats.items + 1 }
  let st :=
    if c.opts.scrapeDetails ∧ ¬ jsSkipped itemDetails then
      { st with requests := st.requests + 1 }
    else st
  if itemSuccess itemDetails then
    let st := { st with itemsSuccess := st.itemsSuccess + 1 }
    let e := (itemDetails.bind ApiItemResponse.element).getD x
    (onItemScraped c { s with stats := st } e, acc ++ [e])
  else ({ s with stats := st }, acc)

/-- A run context exercising `skipItemRequestsStats`: the options request
that successful item resolutions not be counted as requests, details are
scraped, and the item fetch resolves the single item successfully exactly
the way `scrapePosts`'s `fetchItem` wrapper does. -/
def skipStatsCtx : RunCtx :=
  { opts :=
      { outputType := some OutputType.json
        scrapeDetails := true
        skipItemRequestsStats := true }
    fetchItem := fun item => some { id := some item.id, element := some item }
    writeOk := fun _ => true }

/-- The single-item list page for the `skipItemRequestsStats` run. -/
def skipStatsList : ApiListResponse :=
  { id := some "list1", elements := some [⟨"post1"⟩], totalPages := some 1 }

/-- The page-level concurrency bound of a run as discovered from page 1:
`firstPage?.user?.requestsConcurrency || 1`. -/
def concOfWorld (w : World) : Nat :=
  jsConc ((firstPageResult w).bind ApiListResponse.requestsConcurrency)

/-- Invariant backing the concurrency bound: the in-flight count never
exceeds the queue's worker count, and once tasks exist the worker count is
the one discovered from page 1. -/
def ConcInv (w : World) (s : MState) : Prop :=
  inflight s ≤ s.conc ∧ (s.tasks ≠ [] → s.conc = concOfWorld w)

/-- A state has a page task inside its item loop (suspended on a detail
fetch or on a store write). -/
def InItemPhase (s : MState) : Prop :=
  ∃ pre post p lst rem,
    s.tasks = pre ++ (p, TaskPC.awaitingItem lst rem) :: post ∨
    s.tasks = pre ++ (p, TaskPC.awaitingWrite lst rem) :: post

/-- Structural invariant of the orchestrator prelude: before the first page
resolves there is no terminal flag, no pending store open and no task. -/
def BaseInv (s : MState) : Prop :=
  s.orch = OrchPC.start ∨ s.orch = OrchPC.awaitFirst →
    s.done = false ∧ s.storePending = false ∧ s.tasks = []

/-- Page-1 response of the C1 counterexample run: two items, two pages, two
workers. -/
def cexList1 : ApiListResponse :=
  { id := some "L1", elements := some [Item.mk "a1", Item.mk "a2"],
    totalPages := some 2, requestsConcurrency := some 2 }

/-- Items of the counterexample page. -/
def cexItems : List Item := [Item.mk "a1", Item.mk "a2"]

/-- Options of the counterexample run: detail scraping on, json output. -/
def cexOpts : ListingScraperOptions :=
  { outputType := some OutputType.json, scrapeDetails := true }

/-- World of the counterexample run: page 2's list fetch reports quota
exceeded (402); item a1 resolves without an element (no success, loop
continues); the rest is immaterial. -/
def cexWorld : World :=
  { listResp := fun p =>
      if p = 1 then some cexList1 else some { status := some 402 }
    itemResp := fun it =>
      if it.id = "a1" then some { id := some "a1" } else none
    storeInitOk := true }

/-- Counterexample trace, state after `scrapeStart` issues the page-1
fetch. -/
def cex1 : MState :=
  { initState with orch := OrchPC.awaitFirst, fetchCalls := 1 }

/-- State after the first page resolves: two tasks scheduled, concurrency
2. -/
def cex2 : MState := afterFirstPage cexWorld cexOpts cex1

/-- State after task 1 is admitted and issues the detail fetch for a1. -/
def cex3 : MState :=
  (applyAdmitPre cexOpts cex2 [] [(2, TaskPC.queued none)] 1 cexList1).1

/-- State after task 2 is admitted and issues the page-2 list fetch. -/
def cex4 : MState :=
  { setTask cex3 [(1, TaskPC.awaitingItem cexList1 cexItems)] [] 2
      TaskPC.awaitingList with
    fetchCalls := cex3.fetchCalls + 1 }

/-- State after page 2's 402 resolves: the terminal flag is now set while
task 1 still sits inside its item loop. -/
def cex5 : MState :=
  (applyListResume cexWorld cexOpts cex4
    [(1, TaskPC.awaitingItem cexList1 cexItems)] [] 2).1

/-- State after task 1's a1 fetch resolves: the loop continues and issues
the detail fetch for a2 although the terminal flag is set. -/
def cex6 : MState :=
  (applyItemResume cexWorld cexOpts cex5 [] [(2, TaskPC.finished)] 1
    cexList1 cexItems).1

/-- The fatal nothing-to-scrape start condition of `scrapeStart`
(`!firstPage || !totalPages`): the first page is null (transport failure or
a swallowed 402) or the clamped total page count is zero. -/
def earlyExitRun (w : World) (o : ListingScraperOptions) : Prop :=
  firstPageResult w = none ∨ clampedTotal o (firstPageResult w) = 0

/-- Invariant tying the orchestrator pc to the nothing-to-scrape condition:
the run returns no stats exactly on the fatal start path. -/
def RetInv (w : World) (o : ListingScraperOptions) (s : MState) : Prop :=
  (s.orch = OrchPC.returned none → earlyExitRun w o) ∧
  (∀ st, s.orch = OrchPC.returned (some st) → ¬ earlyExitRun w o) ∧
  (s.orch = OrchPC.awaitAll → ¬ earlyExitRun w o)

/-- The nothing-to-scrape run condition of C3: the page-1 fetch resolves to
null (transport failure), or it succeeds without a quota signal but reports
a zero/absent total page count. -/
def NoScrapeCond (w : World) : Prop :=
  w.listResp 1 = none ∨
    ∃ r0, w.listResp 1 = some r0 ∧ r0.status ≠ some 402 ∧
      r0.totalPages.getD 0 = 0

/-- Invariant of a nothing-to-scrape run: no tasks ever exist, no item is
ever counted, and the run ends returning no stats with exactly the failed
page-1 attempt counted. -/
structure NoScrapeInv (s : MState) : Prop where
  tasksNil : s.tasks = []
  itemsZero : s.stats.items = 0
  itemsSuccessZero : s.stats.itemsSuccess = 0
  pagesStart : s.orch = OrchPC.start → s.stats.pages = 0
  pagesAwait : s.orch = OrchPC.awaitFirst → s.stats.pages = 0
  ret : ∀ r, s.orch = OrchPC.returned r → r = none ∧ s.stats.pages = 1
  notAwaitAll : s.orch ≠ OrchPC.awaitAll

/-- Whether a task is still waiting for admission by the page queue. -/
def isQueued : TaskPC → Bool
  | TaskPC.queued _ => true
  | _ => false

/-- Whether a task has contributed a list fetch: tasks for pages 2 and up
issue their fetch exactly when leaving the queued state (page 1's task uses
the prefetched list). -/
def countsFetched (t : Nat × TaskPC) : Bool :=
  decide (2 ≤ t.1) && !(isQueued t.2)

/-- A world in which no fetch ever signals quota exhaustion and the store
opens fine. -/
def CleanWorld (w : World) : Prop :=
  (∀ p, quotaList (w.listResp p) = false) ∧
  (∀ it, quotaItem (w.itemResp it) = false) ∧
  w.storeInitOk = true

/-- Invariant of a clean run whose prelude schedules `tp` pages: the flag
never rises, the scheduled pages are exactly `1..tp`, a queued task holds a
prefetched list iff it is page 1, and the ghost list-fetch counter always
equals one (the prelude's fetch) plus the number of admitted tasks for
pages two and up. -/
structure CleanInv (tp : Nat) (s : MState) : Prop where
  doneFalse : s.done = false
  startCase : s.orch = OrchPC.start → s.fetchCalls = 0 ∧ s.tasks = []
  awaitFirstCase : s.orch = OrchPC.awaitFirst → s.fetchCalls = 1 ∧ s.tasks = []
  pagesShape : s.orch = OrchPC.awaitAll ∨ (∃ rr, s.orch = OrchPC.returned rr) →
    s.tasks.map Prod.fst = List.range' 1 tp ∧
    s.fetchCalls = 1 + s.tasks.countP countsFetched
  queuedShape : ∀ p pf, (p, TaskPC.queued pf) ∈ s.tasks →
    (p = 1 ↔ pf.isSome = true)
  retAll : ∀ rr, s.orch = OrchPC.returned rr →
    ∀ t ∈ s.tasks, t.2 = TaskPC.finished

/-- Invariant carrying the scheduled page count of a run whose first page
succeeded with clamped total `n`. -/
def TasksLenInv (n : Nat) (s : MState) : Prop :=
  s.orch = OrchPC.awaitAll ∨ (∃ rr, s.orch = OrchPC.returned rr) →
    s.tasks.length = n

/-- Page-1 response of the scenario-D run: 100 reported pages. -/
def c6r1 : ApiListResponse :=
  { id := some "L", totalPages := some 100, requestsConcurrency := some 2 }

/-- World of the scenario-D run. -/
def c6World : World :=
  { listResp := fun p => if p = 1 then some c6r1 else some { id := some "L" }
    itemResp := fun _ => none
    storeInitOk := true }

/-- Options of the scenario-D run: `maxPages = 5`. -/
def c6Opts : ListingScraperOptions :=
  { outputType := some OutputType.json, maxPages := some 5 }

/-- The stats sanity invariant of the spec: successes never exceed
attempts. -/
def StatsInv (st : Stats) : Prop :=
  st.itemsSuccess ≤ st.items ∧ st.pagesSuccess ≤ st.pages

/-- A world whose fetches all fail; used to instantiate universally
quantified machine theorems at a concrete run. -/
def trivialWorld : World :=
  { listResp := fun _ => none, itemResp := fun _ => none, storeInitOk := true }

/-- Terminal state of the run against the all-failing world: the first page
fetch resolves null and `scrapeStart` takes its early return. -/
def failTerm : MState := afterFirstPage trivialWorld {} cex1

/-- Concrete run context for exercising the quota abort: item "bad" gets a
402 detail response, all other items resolve successfully. -/
def witCtx : RunCtx :=
  { opts := { outputType := some OutputType.json, scrapeDetails := true }
    fetchItem := fun it =>
      if it.id = "bad" then some { status := some 402, error := some "quota hit" }
      else some { id := some it.id, element := some it }
    writeOk := fun _ => true }

/-- Concrete list page for the quota abort run. -/
def witList : ApiListResponse :=
  { id := some "list1", elements := some [Item.mk "a", Item.mk "bad", Item.mk "zz"] }

/-- Concrete run context with an sqlite store whose inserts all reject. -/
def wfCtx : RunCtx :=
  { opts := { outputType := some OutputType.sqlite, scrapeDetails := true }
    fetchItem := fun it => some { id := some it.id, element := some it }
    writeOk := fun _ => false }

/-- C10: for every caller-supplied options object, the `maxPages` value the
LinkedIn scrape entry points pass to the listing engine is the hard-coded
per-entity ceiling (40 for `scrapeJobs`; 100 for `scrapeCompanies`,
`scrapeProfiles` and `scrapePosts`), regardless of any `maxPages` the caller
put in the options, because the hard-coded value is written after the
caller's options are spread. -/
theorem linkedin_maxPages_hardcoded (o : ScrapeCallerOptions) :
    (scrapeJobsOptions o).maxPages = some 40 ∧
    (scrapeCompaniesOptions o).maxPages = some 100 ∧
    (scrapeProfilesOptions o).maxPages = some 100 ∧
    (scrapePostsOptions o).maxPages = some 100 :=
  ⟨rfl, rfl, rfl, rfl⟩

/-- C9: the engine ignores `skipItemRequestsStats`. With
`skipItemRequestsStats = true` and `scrapeDetails = true`, a successful,
not-skipped item resolution still increments the `requests` statistic,
because `scrapePageItems` only consults `itemDetails?.skipped`, never the
option. The claim (no request counted for item resolutions) fails on this
input. -/
theorem skipItemRequestsStats_ignored :
    skipStatsCtx.opts.skipItemRequestsStats = true ∧
    (scrapePageItems skipStatsCtx skipStatsList {}).1.stats.itemsSuccess = 1 ∧
    (scrapePageItems skipStatsCtx skipStatsList {}).1.stats.requests = 1 := by
  refine ⟨rfl, ?_, ?_⟩ <;> rfl

/-- C8: an item whose resolution succeeds (present `element`, non-empty
`id`) but whose sqlite insert rejects is still counted in `itemsSuccess`
(and `items`), while the store is left unchanged and no error is recorded:
the write failure is only logged and the element is dropped from the store,
yet it still enters the page's `details` list. -/
theorem writeFailure_decoupled (c : RunCtx) (lst : ApiListResponse)
    (item e : Item) (dd : ApiItemResponse) (rest : List Item) (s : PState)
    (acc : List Item)
    (hdet : c.opts.scrapeDetails = true)
    (hout : effOutput c.opts = OutputType.sqlite)
    (hresp : c.fetchItem item = some dd)
    (hq : dd.status ≠ some 402)
    (hel : dd.element = some e)
    (hid : jsTruthy dd.id = true)
    (hw : c.writeOk e = false) :
    ∃ s' : PState,
      itemsLoop c lst (item :: rest) s acc =
        itemsLoop c lst rest s' (acc ++ [e]) ∧
      s'.written = s.written ∧
      s'.inMemoryItems = s.inMemoryItems ∧
      s'.stats.itemsSuccess = s.stats.itemsSuccess + 1 ∧
      s'.stats.items = s.stats.items + 1 ∧
      s'.done = s.done ∧
      s'.error = s.error := by
  have hq' : quotaItem (some dd) = false := by
    simp [quotaItem, hq]
  have hsucc : itemSuccess (some dd) = true := by
    simp [itemSuccess, hel, hid]
  have hjson : ¬ effOutput c.opts = OutputType.json := by
    rw [hout]; intro h; cases h
  by_cases hsk : jsSkipped (some dd) = true
  · refine ⟨{ s with stats :=
        { s.stats with
          items := s.stats.items + 1
          itemsSuccess := s.stats.itemsSuccess + 1 } },
      ?_, rfl, rfl, rfl, rfl, rfl, rfl⟩
    simp [itemsLoop, hdet, hresp, hq', hsucc, hsk, hel, onItemScraped,
      hjson, hout, hw]
  · refine ⟨{ s with stats :=
        { s.stats with
          items := s.stats.items + 1
          itemsSuccess := s.stats.itemsSuccess + 1
          requests := s.stats.requests + 1 } },
      ?_, rfl, rfl, rfl, rfl, rfl, rfl⟩
    simp [itemsLoop, hdet, hresp, hq', hsucc, hsk, hel, onItemScraped,
      hjson, hout, hw]

/-- Unfolding lemma: a non-quota iteration of the detail-scraping item loop
continues with the state and accumulator of `itemStep`. -/
theorem itemsLoop_cons_det (c : RunCtx) (lst : ApiListResponse) (x : Item)
    (xs : List Item) (s : PState) (acc : List Item)
    (hdet : c.opts.scrapeDetails = true)
    (hx : quotaItem (c.fetchItem x) = false) :
    itemsLoop c lst (x :: xs) s acc =
      itemsLoop c lst xs (itemStep c lst x s acc).1 (itemStep c lst x s acc).2 := by
  simp [itemsLoop, itemStep, hdet, hx]
  cases hsucc : itemSuccess (c.fetchItem x) <;> simp [hsucc]

/-- C7: while scraping details, a quota-exceeded (402) response for some
item of a page makes `scrapePageItems` immediately set the terminal flag,
record the current error in the error slot, and return exactly the details
resolved for the items before it — the remaining items of the page are
never processed (the result does not depend on them). -/
theorem quota_aborts_page (c : RunCtx) (lst : ApiListResponse)
    (pre : List Item) (bad : Item) (rest : List Item) (s : PState)
    (acc : List Item)
    (hdet : c.opts.scrapeDetails = true)
    (hpre : ∀ x ∈ pre, quotaItem (c.fetchItem x) = false)
    (hbad : quotaItem (c.fetchItem bad) = true) :
    itemsLoop c lst (pre ++ bad :: rest) s acc =
      ({ (itemsLoop c lst pre s acc).1 with
         done := true
         error := some (itemErrOr (c.fetchItem bad)) },
       (itemsLoop c lst pre s acc).2) := by
  induction pre generalizing s acc with
  | nil =>
    simp [itemsLoop, hdet, hbad]
  | cons x xs ih =>
    have hx : quotaItem (c.fetchItem x) = false := hpre x (by simp)
    have hxs : ∀ y ∈ xs, quotaItem (c.fetchItem y) = false := by
      intro y hy; exact hpre y (by simp [hy])
    rw [List.cons_append, itemsLoop_cons_det c lst x (xs ++ bad :: rest) s acc hdet hx,
      itemsLoop_cons_det c lst x xs s acc hdet hx]
    exact ih _ _ hxs

/-- Witness for `quota_aborts_page`: on a concrete page `[a, bad, zz]` where
`bad` answers 402, the loop returns the state and details of processing
`[a]` alone, with the flag set and the error recorded. -/
theorem quota_aborts_page_witness :
    witCtx.opts.scrapeDetails = true ∧
    (∀ x ∈ [Item.mk "a"], quotaItem (witCtx.fetchItem x) = false) ∧
    quotaItem (witCtx.fetchItem (Item.mk "bad")) = true ∧
    itemsLoop witCtx witList ([Item.mk "a"] ++ Item.mk "bad" :: [Item.mk "zz"]) {} [] =
      ({ (itemsLoop witCtx witList [Item.mk "a"] {} []).1 with
         done := true
         error := some (itemErrOr (witCtx.fetchItem (Item.mk "bad"))) },
       (itemsLoop witCtx witList [Item.mk "a"] {} []).2) :=
  ⟨rfl, by decide, by decide,
    quota_aborts_page witCtx witList [Item.mk "a"] (Item.mk "bad") [Item.mk "zz"]
      {} [] rfl (by decide) (by decide)⟩

/-- Witness for `writeFailure_decoupled`: a concrete successful item whose
sqlite insert rejects. -/
theorem writeFailure_decoupled_witness :
    wfCtx.opts.scrapeDetails = true ∧
    effOutput wfCtx.opts = OutputType.sqlite ∧
    wfCtx.fetchItem (Item.mk "a") =
      some { id := some "a", element := some (Item.mk "a") } ∧
    ({ id := some "a", element := some (Item.mk "a") } : ApiItemResponse).status ≠ some 402 ∧
    ({ id := some "a", element := some (Item.mk "a") } : ApiItemResponse).element = some (Item.mk "a") ∧
    jsTruthy ({ id := some "a", element := some (Item.mk "a") } : ApiItemResponse).id = true ∧
    wfCtx.writeOk (Item.mk "a") = false ∧
    ∃ s' : PState,
      itemsLoop wfCtx witList (Item.mk "a" :: []) {} [] =
        itemsLoop wfCtx witList [] s' ([] ++ [Item.mk "a"]) ∧
      s'.written = PState.written {} ∧
      s'.inMemoryItems = PState.inMemoryItems {} ∧
      s'.stats.itemsSuccess = (PState.stats {}).itemsSuccess + 1 ∧
      s'.stats.items = (PState.stats {}).items + 1 ∧
      s'.done = PState.done {} ∧
      s'.error = PState.error {} :=
  ⟨rfl, rfl, rfl, by decide, rfl, by decide, rfl,
    writeFailure_decoupled wfCtx witList (Item.mk "a") (Item.mk "a")
      { id := some "a", element := some (Item.mk "a") } [] {} []
      rfl rfl rfl (by decide) rfl (by decide) rfl⟩

/-- `bumpPages` preserves the stats invariant. -/
theorem statsInv_bumpPages (r : Option ApiListResponse) (st : Stats)
    (h : StatsInv st) : StatsInv (bumpPages r st) := by
  simp only [bumpPages, StatsInv] at *
  split <;> simp <;> omega

/-- `runNoDetailItems` preserves the stats invariant. -/
theorem statsInv_runNoDetail (lst : ApiListResponse) (es : List Item) :
    ∀ st : Stats, StatsInv st → StatsInv (runNoDetailItems lst st es).1 := by
  induction es with
  | nil => intro st h; simpa [runNoDetailItems]
  | cons x xs ih =>
    intro st h
    simp only [runNoDetailItems]
    split
    · simp [StatsInv] at h ⊢
      omega
    · exact ih _ (by simp [StatsInv] at h ⊢; omega)

/-- `beginItems` preserves the stats invariant. -/
theorem statsInv_beginItems (o : ListingScraperOptions)
    (lst : ApiListResponse) (st : Stats) (h : StatsInv st) :
    StatsInv (beginItems o lst st).1 := by
  cases hel : lst.elements with
  | none => simpa [beginItems, hel]
  | some es =>
    by_cases hd : o.scrapeDetails = true
    · cases es <;> simpa [beginItems, hel, hd]
    · have hrun := statsInv_runNoDetail lst es st h
      rcases hrn : runNoDetailItems lst st es with ⟨st1, r⟩
      rw [hrn] at hrun
      cases r <;> simpa [beginItems, hel, hd, hrn]

/-- `applyAdmitPre` preserves the stats invariant. -/
theorem statsInv_applyAdmitPre (o : ListingScraperOptions) (s : MState)
    (pre post : List (Nat × TaskPC)) (p : Nat) (lst : ApiListResponse)
    (h : StatsInv s.stats) :
    StatsInv (applyAdmitPre o s pre post p lst).1.stats := by
  have hb := statsInv_beginItems o lst s.stats h
  rcases hbi : beginItems o lst s.stats with ⟨st, pc, ev⟩
  rw [hbi] at hb
  simp [applyAdmitPre, hbi, setTask]
  exact hb

/-- `applyListResume` preserves the stats invariant. -/
theorem statsInv_applyListResume (w : World) (o : ListingScraperOptions)
    (s : MState) (pre post : List (Nat × TaskPC)) (p : Nat)
    (h : StatsInv s.stats) :
    StatsInv (applyListResume w o s pre post p).1.stats := by
  by_cases hq : quotaList (w.listResp p) = true
  · simp [applyListResume, hq, setTask]
    exact h
  · have hbp := statsInv_bumpPages (w.listResp p) s.stats h
    by_cases hd : s.done = true
    · simp [applyListResume, hq, hd, setTask]
      exact hbp
    · cases hr : w.listResp p with
      | none => simp [applyListResume, hq, hd, hr, setTask]
                exact statsInv_bumpPages none s.stats h
      | some lst =>
        rw [hr] at hq
        have hb := statsInv_beginItems o lst _
          (statsInv_bumpPages (some lst) s.stats h)
        rcases hbi : beginItems o lst (bumpPages (some lst) s.stats)
          with ⟨st2, pc, ev⟩
        rw [hbi] at hb
        simp [applyListResume, hq, hd, hr, setTask, hbi]
        exact hb

/-- `applyItemResume` preserves the stats invariant. -/
theorem statsInv_applyItemResume (w : World) (o : ListingScraperOptions)
    (s : MState) (pre post : List (Nat × TaskPC)) (p : Nat)
    (lst : ApiListResponse) (rem : List Item) (h : StatsInv s.stats) :
    StatsInv (applyItemResume w o s pre post p lst rem).1.stats := by
  cases rem with
  | nil => simpa [applyItemResume, setTask]
  | cons x rest =>
    by_cases hq : quotaItem (w.itemResp x) = true
    · simp [applyItemResume, hq, setTask]
      exact h
    · cases hd : o.scrapeDetails <;> cases hj : jsSkipped (w.itemResp x) <;>
        cases hsucc : itemSuccess (w.itemResp x) <;> cases rest <;>
        (simp [applyItemResume, hq, hd, hj, hsucc, setTask, StatsInv] at h ⊢) <;>
        omega

/-- `applyWriteResume` preserves the stats invariant. -/
theorem statsInv_applyWriteResume (o : ListingScraperOptions) (s : MState)
    (pre post : List (Nat × TaskPC)) (p : Nat) (lst : ApiListResponse)
    (rem : List Item) (h : StatsInv s.stats) :
    StatsInv (applyWriteResume o s pre post p lst rem).1.stats := by
  by_cases hd : o.scrapeDetails = true
  · cases rem <;> simpa [applyWriteResume, hd, setTask]
  · have hrun := statsInv_runNoDetail lst rem s.stats h
    rcases hrn : runNoDetailItems lst s.stats rem with ⟨st, r⟩
    rw [hrn] at hrun
    cases r <;> simp [applyWriteResume, hd, hrn, setTask] <;> exact hrun

/-- `afterFirstPage` preserves the stats invariant. -/
theorem statsInv_afterFirstPage (w : World) (o : ListingScraperOptions)
    (s : MState) (h : StatsInv s.stats) :
    StatsInv (afterFirstPage w o s).stats := by
  by_cases hq : quotaList (w.listResp 1) = true
  · simp [afterFirstPage, firstPageResult, hq]
    exact h
  · cases hr : w.listResp 1 with
    | none =>
      have hbp := statsInv_bumpPages none s.stats h
      simp [afterFirstPage, firstPageResult, hq, hr, quotaList]
      exact hbp
    | some lst =>
      rw [hr] at hq
      by_cases htp : clampedTotal o (some lst) = 0
      · have hbp := statsInv_bumpPages (some lst) s.stats h
        simp [afterFirstPage, firstPageResult, hq, hr, htp]
        exact hbp
      · simp [afterFirstPage, firstPageResult, hq, hr, htp, StatsInv, bumpPages]
        rcases h with ⟨h1, h2⟩
        split <;> simp <;> omega

/-- Every machine step preserves the stats invariant. -/
theorem statsInv_step (w : World) (o : ListingScraperOptions) {s s' : MState}
    {ev : Ev} (hs : Step w o s ev s') (h : StatsInv s.stats) :
    StatsInv s'.stats := by
  cases hs with
  | ostart h1 => exact h
  | ofirst h1 => exact statsInv_afterFirstPage w o s h
  | storeResolve h1 =>
    simp only [applyStore]
    split <;> exact h
  | admitDone pre post p pf ht hd hs2 => exact h
  | admitFetch pre post p ht hd hs2 => exact h
  | admitPre pre post p lst ht hd hs2 =>
    exact statsInv_applyAdmitPre o s pre post p lst h
  | listResume pre post p ht =>
    exact statsInv_applyListResume w o s pre post p h
  | itemResume pre post p lst rem ht =>
    exact statsInv_applyItemResume w o s pre post p lst rem h
  | writeResume pre post p lst rem ht =>
    exact statsInv_applyWriteResume o s pre post p lst rem h
  | oreturn h1 hall => exact h

/-- C5: at every reachable point of every run, the stats counters satisfy
`itemsSucceeded ≤ itemsAttempted` and `pagesSucceeded ≤ pagesAttempted`. -/
theorem stats_counters_sound (w : World) (o : ListingScraperOptions)
    (s : MState) (h : Reach w o s) :
    s.stats.itemsSuccess ≤ s.stats.items ∧
    s.stats.pagesSuccess ≤ s.stats.pages := by
  induction h with
  | init => exact ⟨Nat.le_refl 0, Nat.le_refl 0⟩
  | next hr hs ih => exact statsInv_step w o hs ih

/-- Witness for `stats_counters_sound` at the initial state of a concrete
run. -/
theorem stats_counters_sound_witness :
    Reach trivialWorld {} initState ∧
    (initState.stats.itemsSuccess ≤ initState.stats.items ∧
     initState.stats.pagesSuccess ≤ initState.stats.pages) :=
  ⟨Reach.init, stats_counters_sound trivialWorld {} initState Reach.init⟩

/-- `applyAdmitPre` only changes the singled-out task and the stats. -/
theorem applyAdmitPre_fields (o : ListingScraperOptions) (s : MState)
    (pre post : List (Nat × TaskPC)) (p : Nat) (lst : ApiListResponse) :
    (applyAdmitPre o s pre post p lst).1.conc = s.conc ∧
    (applyAdmitPre o s pre post p lst).1.orch = s.orch ∧
    (applyAdmitPre o s pre post p lst).1.done = s.done ∧
    (applyAdmitPre o s pre post p lst).1.fetchCalls = s.fetchCalls ∧
    (applyAdmitPre o s pre post p lst).1.storePending = s.storePending ∧
    ∃ pc, (applyAdmitPre o s pre post p lst).1.tasks = pre ++ (p, pc) :: post := by
  simp only [applyAdmitPre]
  exact ⟨rfl, rfl, rfl, rfl, rfl, _, rfl⟩

/-- `applyListResume` only changes the singled-out task, stats, `done` and
the error slot. -/
theorem applyListResume_fields (w : World) (o : ListingScraperOptions)
    (s : MState) (pre post : List (Nat × TaskPC)) (p : Nat) :
    (applyListResume w o s pre post p).1.conc = s.conc ∧
    (applyListResume w o s pre post p).1.orch = s.orch ∧
    (applyListResume w o s pre post p).1.fetchCalls = s.fetchCalls ∧
    (applyListResume w o s pre post p).1.storePending = s.storePending ∧
    ∃ pc, (applyListResume w o s pre post p).1.tasks = pre ++ (p, pc) :: post := by
  simp only [applyListResume]
  repeat' split
  all_goals exact ⟨rfl, rfl, rfl, rfl, _, rfl⟩

/-- `applyItemResume` only changes the singled-out task, stats, `done` and
the error slot. -/
theorem applyItemResume_fields (w : World) (o : ListingScraperOptions)
    (s : MState) (pre post : List (Nat × TaskPC)) (p : Nat)
    (lst : ApiListResponse) (rem : List Item) :
    (applyItemResume w o s pre post p lst rem).1.conc = s.conc ∧
    (applyItemResume w o s pre post p lst rem).1.orch = s.orch ∧
    (applyItemResume w o s pre post p lst rem).1.fetchCalls = s.fetchCalls ∧
    (applyItemResume w o s pre post p lst rem).1.storePending = s.storePending ∧
    ∃ pc, (applyItemResume w o s pre post p lst rem).1.tasks =
      pre ++ (p, pc) :: post := by
  cases rem <;> simp only [applyItemResume] <;> repeat' split
  all_goals exact ⟨rfl, rfl, rfl, rfl, _, rfl⟩

/-- `applyWriteResume` only changes the singled-out task and the stats. -/
theorem applyWriteResume_fields (o : ListingScraperOptions) (s : MState)
    (pre post : List (Nat × TaskPC)) (p : Nat) (lst : ApiListResponse)
    (rem : List Item) :
    (applyWriteResume o s pre post p lst rem).1.conc = s.conc ∧
    (applyWriteResume o s pre post p lst rem).1.orch = s.orch ∧
    (applyWriteResume o s pre post p lst rem).1.done = s.done ∧
    (applyWriteResume o s pre post p lst rem).1.fetchCalls = s.fetchCalls ∧
    (applyWriteResume o s pre post p lst rem).1.storePending = s.storePending ∧
    ∃ pc, (applyWriteResume o s pre post p lst rem).1.tasks =
      pre ++ (p, pc) :: post := by
  simp only [applyWriteResume]
  repeat' split
  all_goals exact ⟨rfl, rfl, rfl, rfl, rfl, _, rfl⟩

/-- `applyStore` only changes `storePending`, `done` and the error slot. -/
theorem applyStore_fields (w : World) (s : MState) :
    (applyStore w s).conc = s.conc ∧
    (applyStore w s).orch = s.orch ∧
    (applyStore w s).stats = s.stats ∧
    (applyStore w s).fetchCalls = s.fetchCalls ∧
    (applyStore w s).tasks = s.tasks := by
  simp only [applyStore]
  repeat' split
  all_goals exact ⟨rfl, rfl, rfl, rfl, rfl⟩

/-- Replacing an active task's pc cannot increase the in-flight count. -/
theorem inflight_update_le (s s' : MState) (pre post : List (Nat × TaskPC))
    (p : Nat) (q pc : TaskPC)
    (h : s.tasks = pre ++ (p, q) :: post)
    (h' : s'.tasks = pre ++ (p, pc) :: post)
    (hq : taskActive q = true) : inflight s' ≤ inflight s := by
  cases hpc : taskActive pc <;>
    simp [inflight, h, h', List.countP_append, List.countP_cons, hq, hpc]

/-- Replacing any task's pc increases the in-flight count by at most one. -/
theorem inflight_update_succ_le (s s' : MState)
    (pre post : List (Nat × TaskPC)) (p : Nat) (q pc : TaskPC)
    (h : s.tasks = pre ++ (p, q) :: post)
    (h' : s'.tasks = pre ++ (p, pc) :: post) :
    inflight s' ≤ inflight s + 1 := by
  cases hq : taskActive q <;> cases hpc : taskActive pc <;>
    simp [inflight, h, h', List.countP_append, List.countP_cons, hq, hpc] <;>
    omega

/-- Freshly scheduled tasks are all queued, hence none is in flight. -/
theorem countP_scheduleTasks (lst : ApiListResponse) (tp : Nat) :
    (scheduleTasks lst tp).countP (fun t => taskActive t.2) = 0 := by
  rw [List.countP_eq_zero]
  intro a ha
  rcases List.mem_cons.1 ha with rfl | hmem
  · simp [taskActive]
  · rcases List.mem_map.1 hmem with ⟨p, hp, rfl⟩
    simp [taskActive]

/-- `afterFirstPage` preserves the concurrency invariant. -/
theorem concInv_afterFirstPage (w : World) (o : ListingScraperOptions)
    (s : MState) (ih : ConcInv w s) : ConcInv w (afterFirstPage w o s) := by
  by_cases hq : quotaList (w.listResp 1) = true
  · simp only [afterFirstPage, firstPageResult, hq, if_true]
    exact ih
  · cases hr : w.listResp 1 with
    | none =>
      simp only [afterFirstPage, firstPageResult, hq, hr, if_false,
        if_neg hq]
      exact ih
    | some lst =>
      rw [hr] at hq
      by_cases htp : clampedTotal o (some lst) = 0
      · simp [afterFirstPage, firstPageResult, hq, hr, htp]
        exact ih
      · simp [afterFirstPage, firstPageResult, hq, hr, htp, ConcInv,
          inflight, countP_scheduleTasks, concOfWorld]

/-- Every machine step preserves the concurrency invariant. -/
theorem concInv_step (w : World) (o : ListingScraperOptions) {s s' : MState}
    {ev : Ev} (hs : Step w o s ev s') (ih : ConcInv w s) : ConcInv w s' := by
  cases hs with
  | ostart h1 => exact ih
  | ofirst h1 => exact concInv_afterFirstPage w o s ih
  | storeResolve h1 =>
    obtain ⟨hc, ho2, hst, hf, ht⟩ := applyStore_fields w s
    constructor
    · have : inflight (applyStore w s) = inflight s := by simp [inflight, ht]
      rw [this, hc]; exact ih.1
    · intro hne; rw [ht] at hne; rw [hc]; exact ih.2 hne
  | admitDone pre post p pf htk hd hs2 =>
    constructor
    · calc inflight (setTask s pre post p TaskPC.finished)
          ≤ inflight s + 1 :=
            inflight_update_succ_le s _ pre post p _ TaskPC.finished htk rfl
        _ ≤ s.conc := hs2
    · intro _; exact ih.2 (by simp [htk])
  | admitFetch pre post p htk hd hs2 =>
    constructor
    · calc inflight { setTask s pre post p TaskPC.awaitingList with
            fetchCalls := s.fetchCalls + 1 }
          ≤ inflight s + 1 :=
            inflight_update_succ_le s _ pre post p _ TaskPC.awaitingList htk rfl
        _ ≤ s.conc := hs2
    · intro _; exact ih.2 (by simp [htk])
  | admitPre pre post p lst htk hd hs2 =>
    obtain ⟨hc, horc, hdn, hf, hsp, pc, ht'⟩ :=
      applyAdmitPre_fields o s pre post p lst
    constructor
    · rw [hc]
      calc inflight (applyAdmitPre o s pre post p lst).1
          ≤ inflight s + 1 :=
            inflight_update_succ_le s _ pre post p _ pc htk ht'
        _ ≤ s.conc := hs2
    · intro _; rw [hc]; exact ih.2 (by simp [htk])
  | listResume pre post p htk =>
    obtain ⟨hc, horc, hf, hsp, pc, ht'⟩ := applyListResume_fields w o s pre post p
    constructor
    · rw [hc]
      exact le_trans
        (inflight_update_le s _ pre post p _ pc htk ht' rfl) ih.1
    · intro _; rw [hc]; exact ih.2 (by simp [htk])
  | itemResume pre post p lst rem htk =>
    obtain ⟨hc, horc, hf, hsp, pc, ht'⟩ :=
      applyItemResume_fields w o s pre post p lst rem
    constructor
    · rw [hc]
      exact le_trans
        (inflight_update_le s _ pre post p _ pc htk ht' rfl) ih.1
    · intro _; rw [hc]; exact ih.2 (by simp [htk])
  | writeResume pre post p lst rem htk =>
    obtain ⟨hc, horc, hdn, hf, hsp, pc, ht'⟩ :=
      applyWriteResume_fields o s pre post p lst rem
    constructor
    · rw [hc]
      exact le_trans
        (inflight_update_le s _ pre post p _ pc htk ht' rfl) ih.1
    · intro _; rw [hc]; exact ih.2 (by simp [htk])
  | oreturn h1 hall => exact ih

/-- The concurrency invariant holds in every reachable state. -/
theorem concInv_reach (w : World) (o : ListingScraperOptions) (s : MState)
    (h : Reach w o s) : ConcInv w s := by
  induction h with
  | init => exact ⟨Nat.le_refl 0 |>.trans (Nat.zero_le 1), fun h => absurd rfl h⟩
  | next hr hs ih => exact concInv_step w o hs ih

/-- C4: at every reachable point of every run, at most the page-1-reported
`requestsConcurrency` page tasks (with the `|| 1` default for an absent or
zero report) are in flight; and the orchestrator's await of the submitted
tasks resolves only in a state where every submitted task has finished
(each submission is resolved exactly by its task reaching `finished`). -/
theorem concurrency_bound (w : World) (o : ListingScraperOptions)
    (s : MState) (h : Reach w o s) :
    inflight s ≤ concOfWorld w ∧
    (∀ ev s', Step w o s ev s' → s.orch = OrchPC.awaitAll →
      (∃ r, s'.orch = OrchPC.returned r) →
      ∀ t ∈ s.tasks, t.2 = TaskPC.finished) := by
  have hin := concInv_reach w o s h
  constructor
  · by_cases hne : s.tasks = []
    · simp [inflight, hne]
    · rw [← hin.2 hne]; exact hin.1
  · intro ev s' hst ho hres
    cases hst with
    | ostart h1 => rw [h1] at ho; cases ho
    | ofirst h1 => rw [h1] at ho; cases ho
    | storeResolve h1 =>
      obtain ⟨hc, horc, hst2, hf, ht⟩ := applyStore_fields w s
      rcases hres with ⟨r, hr⟩
      rw [horc, ho] at hr; cases hr
    | admitDone pre post p pf htk hd hs2 =>
      rcases hres with ⟨r, hr⟩
      simp [setTask] at hr
      rw [ho] at hr
      cases hr
    | admitFetch pre post p htk hd hs2 =>
      rcases hres with ⟨r, hr⟩
      simp [setTask] at hr
      rw [ho] at hr
      cases hr
    | admitPre pre post p lst htk hd hs2 =>
      obtain ⟨hc, horc, hdn, hf, hsp, pc, ht'⟩ :=
        applyAdmitPre_fields o s pre post p lst
      rcases hres with ⟨r, hr⟩
      rw [horc, ho] at hr; cases hr
    | listResume pre post p htk =>
      obtain ⟨hc, horc, hf, hsp, pc, ht'⟩ :=
        applyListResume_fields w o s pre post p
      rcases hres with ⟨r, hr⟩
      rw [horc, ho] at hr; cases hr
    | itemResume pre post p lst rem htk =>
      obtain ⟨hc, horc, hf, hsp, pc, ht'⟩ :=
        applyItemResume_fields w o s pre post p lst rem
      rcases hres with ⟨r, hr⟩
      rw [horc, ho] at hr; cases hr
    | writeResume pre post p lst rem htk =>
      obtain ⟨hc, horc, hdn, hf, hsp, pc, ht'⟩ :=
        applyWriteResume_fields o s pre post p lst rem
      rcases hres with ⟨r, hr⟩
      rw [horc, ho] at hr; cases hr
    | oreturn h1 hall => exact hall

/-- Witness for `concurrency_bound` at the initial state of a concrete
run. -/
theorem concurrency_bound_witness :
    Reach trivialWorld {} initState ∧
    (inflight initState ≤ concOfWorld trivialWorld ∧
     (∀ ev s', Step trivialWorld {} initState ev s' →
       initState.orch = OrchPC.awaitAll →
       (∃ r, s'.orch = OrchPC.returned r) →
       ∀ t ∈ initState.tasks, t.2 = TaskPC.finished)) :=
  ⟨Reach.init, concurrency_bound trivialWorld {} initState Reach.init⟩

/-- The orchestrator continuation after page 1 either returns early or
starts awaiting the page tasks. -/
theorem afterFirstPage_orch (w : World) (o : ListingScraperOptions)
    (s : MState) :
    (afterFirstPage w o s).orch = OrchPC.returned none ∨
    (afterFirstPage w o s).orch = OrchPC.awaitAll := by
  by_cases hq : quotaList (w.listResp 1) = true
  · simp [afterFirstPage, firstPageResult, hq]
  · cases hr : w.listResp 1 with
    | none => simp [afterFirstPage, firstPageResult, hq, hr]
    | some lst =>
      rw [hr] at hq
      by_cases htp : clampedTotal o (some lst) = 0 <;>
        simp [afterFirstPage, firstPageResult, hq, hr, htp]

/-- Every machine step preserves the prelude invariant. -/
theorem baseInv_step (w : World) (o : ListingScraperOptions) {s s' : MState}
    {ev : Ev} (hs : Step w o s ev s') (ih : BaseInv s) : BaseInv s' := by
  cases hs with
  | ostart h1 => intro _; exact ih (Or.inl h1)
  | ofirst h1 =>
    intro hor
    rcases afterFirstPage_orch w o s with h2 | h2 <;>
      rcases hor with h3 | h3 <;> rw [h2] at h3 <;> cases h3
  | storeResolve h1 =>
    intro hor
    obtain ⟨-, horc, -, -, -⟩ := applyStore_fields w s
    rw [horc] at hor
    have := (ih hor).2.1
    rw [h1] at this
    cases this
  | admitDone pre post p pf htk hd hs2 =>
    intro hor
    have := (ih hor).2.2
    rw [htk] at this
    simp at this
  | admitFetch pre post p htk hd hs2 =>
    intro hor
    have := (ih hor).2.2
    rw [htk] at this
    simp at this
  | admitPre pre post p lst htk hd hs2 =>
    intro hor
    obtain ⟨-, horc, -, -, -, -, -⟩ := applyAdmitPre_fields o s pre post p lst
    rw [horc] at hor
    have := (ih hor).2.2
    rw [htk] at this
    simp at this
  | listResume pre post p htk =>
    intro hor
    obtain ⟨-, horc, -, -, -, -⟩ := applyListResume_fields w o s pre post p
    rw [horc] at hor
    have := (ih hor).2.2
    rw [htk] at this
    simp at this
  | itemResume pre post p lst rem htk =>
    intro hor
    obtain ⟨-, horc, -, -, -, -⟩ := applyItemResume_fields w o s pre post p lst rem
    rw [horc] at hor
    have := (ih hor).2.2
    rw [htk] at this
    simp at this
  | writeResume pre post p lst rem htk =>
    intro hor
    obtain ⟨-, horc, -, -, -, -, -⟩ := applyWriteResume_fields o s pre post p lst rem
    rw [horc] at hor
    have := (ih hor).2.2
    rw [htk] at this
    simp at this
  | oreturn h1 hall =>
    intro hor
    rcases hor with h3 | h3 <;> cases h3

/-- The prelude invariant holds in every reachable state. -/
theorem baseInv_reach (w : World) (o : ListingScraperOptions) (s : MState)
    (h : Reach w o s) : BaseInv s := by
  induction h with
  | init => intro _; exact ⟨rfl, rfl, rfl⟩
  | next hr hs ih => exact baseInv_step w o hs ih

/-- `beginItems` never issues a list fetch. -/
theorem beginItems_ev_ne (o : ListingScraperOptions) (lst : ApiListResponse)
    (st : Stats) (p' : Nat) :
    (beginItems o lst st).2.2 ≠ Ev.fetchPage p' := by
  cases hel : lst.elements with
  | none => simp [beginItems, hel]
  | some es =>
    by_cases hd : o.scrapeDetails = true
    · cases es <;> simp [beginItems, hel, hd]
    · rcases hrn : runNoDetailItems lst st es with ⟨st1, r⟩
      cases r <;> simp [beginItems, hel, hd, hrn]

/-- `applyAdmitPre` never issues a list fetch. -/
theorem applyAdmitPre_ev_ne (o : ListingScraperOptions) (s : MState)
    (pre post : List (Nat × TaskPC)) (p : Nat) (lst : ApiListResponse)
    (p' : Nat) : (applyAdmitPre o s pre post p lst).2 ≠ Ev.fetchPage p' := by
  have h := beginItems_ev_ne o lst s.stats p'
  rcases hb : beginItems o lst s.stats with ⟨st, pc, ev⟩
  rw [hb] at h
  simpa [applyAdmitPre, hb] using h

/-- `applyListResume` never issues a list fetch. -/
theorem applyListResume_ev_ne (w : World) (o : ListingScraperOptions)
    (s : MState) (pre post : List (Nat × TaskPC)) (p : Nat) (p' : Nat) :
    (applyListResume w o s pre post p).2 ≠ Ev.fetchPage p' := by
  by_cases hq : quotaList (w.listResp p) = true
  · simp [applyListResume, hq]
  · cases hd : s.done with
    | true => simp [applyListResume, hq, hd]
    | false =>
      cases hr : w.listResp p with
      | none => simp [applyListResume, hq, hd, hr]
      | some lst =>
        rw [hr] at hq
        have h := beginItems_ev_ne o lst (bumpPages (some lst) s.stats) p'
        rcases hb : beginItems o lst (bumpPages (some lst) s.stats)
          with ⟨st2, pc, ev⟩
        rw [hb] at h
        simpa [applyListResume, hq, hd, hr, hb] using h

/-- `applyItemResume` never issues a list fetch. -/
theorem applyItemResume_ev_ne (w : World) (o : ListingScraperOptions)
    (s : MState) (pre post : List (Nat × TaskPC)) (p : Nat)
    (lst : ApiListResponse) (rem : List Item) (p' : Nat) :
    (applyItemResume w o s pre post p lst rem).2 ≠ Ev.fetchPage p' := by
  cases rem with
  | nil => simp [applyItemResume]
  | cons x rest =>
    by_cases hq : quotaItem (w.itemResp x) = true
    · simp [applyItemResume, hq]
    · by_cases hsucc : itemSuccess (w.itemResp x) = true
      · simp [applyItemResume, hq, hsucc]
      · cases rest <;> simp [applyItemResume, hq, hsucc]

/-- `applyWriteResume` never issues a list fetch. -/
theorem applyWriteResume_ev_ne (o : ListingScraperOptions) (s : MState)
    (pre post : List (Nat × TaskPC)) (p : Nat) (lst : ApiListResponse)
    (rem : List Item) (p' : Nat) :
    (applyWriteResume o s pre post p lst rem).2 ≠ Ev.fetchPage p' := by
  by_cases hd : o.scrapeDetails = true
  · cases rem <;> simp [applyWriteResume, hd]
  · rcases hrn : runNoDetailItems lst s.stats rem with ⟨st, r⟩
    cases r <;> simp [applyWriteResume, hd, hrn]

/-- A page task resuming its list fetch after the terminal flag is set
returns immediately and issues nothing. -/
theorem applyListResume_ev_done (w : World) (o : ListingScraperOptions)
    (s : MState) (pre post : List (Nat × TaskPC)) (p : Nat)
    (hd : s.done = true) :
    (applyListResume w o s pre post p).2 = Ev.tau := by
  by_cases hq : quotaList (w.listResp p) = true <;>
    simp [applyListResume, hq, hd]

/-- C1 (amended): once the terminal flag is set, no step of any run issues a
page (list) fetch — the flag is checked when a page task is admitted and
again when its list fetch resolves, before its item processing begins; but
an item detail fetch can still be issued while the flag is set, and only by
a page already inside its item loop (the flag is not checked between the
items of a page). -/
theorem done_blocks_new_fetches (w : World) (o : ListingScraperOptions)
    (s s' : MState) (ev : Ev) (hr : Reach w o s)
    (hs : Step w o s ev s') :
    (∀ p, ev = Ev.fetchPage p → s.done = false) ∧
    (∀ i, ev = Ev.fetchItem i → s.done = true → InItemPhase s) := by
  constructor
  · intro p hp
    cases hs with
    | ostart h1 => exact ((baseInv_reach w o s hr) (Or.inl h1)).1
    | ofirst h1 => cases hp
    | storeResolve h1 => cases hp
    | admitDone pre post pp pf htk hd hs2 => cases hp
    | admitFetch pre post pp htk hd hs2 => exact hd
    | admitPre pre post pp lst htk hd hs2 => exact hd
    | listResume pre post pp htk =>
      exact absurd hp (applyListResume_ev_ne w o s pre post pp p)
    | itemResume pre post pp lst rem htk =>
      exact absurd hp (applyItemResume_ev_ne w o s pre post pp lst rem p)
    | writeResume pre post pp lst rem htk =>
      exact absurd hp (applyWriteResume_ev_ne o s pre post pp lst rem p)
    | oreturn h1 hall => cases hp
  · intro i hi hdone
    cases hs with
    | ostart h1 => cases hi
    | ofirst h1 => cases hi
    | storeResolve h1 => cases hi
    | admitDone pre post pp pf htk hd hs2 => cases hi
    | admitFetch pre post pp htk hd hs2 => cases hi
    | admitPre pre post pp lst htk hd hs2 => rw [hdone] at hd; cases hd
    | listResume pre post pp htk =>
      rw [applyListResume_ev_done w o s pre post pp hdone] at hi
      cases hi
    | itemResume pre post pp lst rem htk =>
      exact ⟨pre, post, pp, lst, rem, Or.inl htk⟩
    | writeResume pre post pp lst rem htk =>
      exact ⟨pre, post, pp, lst, rem, Or.inr htk⟩
    | oreturn h1 hall => cases hi

/-- Witness for `done_blocks_new_fetches` at the run's very first step. -/
theorem done_blocks_new_fetches_witness :
    Reach trivialWorld {} initState ∧
    Step trivialWorld {} initState (Ev.fetchPage 1)
      { initState with
        orch := OrchPC.awaitFirst
        fetchCalls := initState.fetchCalls + 1 } ∧
    ((∀ p, Ev.fetchPage 1 = Ev.fetchPage p → initState.done = false) ∧
     (∀ i, Ev.fetchPage 1 = Ev.fetchItem i → initState.done = true →
        InItemPhase initState)) :=
  ⟨Reach.init, Step.ostart initState rfl,
    done_blocks_new_fetches trivialWorld {} initState _ (Ev.fetchPage 1)
      Reach.init (Step.ostart initState rfl)⟩

/-- C1 counterexample: a reachable state with the terminal flag set from
which the very next step issues an item detail fetch — the claim that no
further item detail fetches are issued once the flag is set (and that the
flag is checked at the start of each item's processing) fails on this run:
page 2's 402 sets the flag while page 1 is inside its item loop, and page
1's loop then issues the detail fetch for its second item. -/
theorem done_item_fetch_cex :
    Reach cexWorld cexOpts cex5 ∧
    cex5.done = true ∧
    Step cexWorld cexOpts cex5 (Ev.fetchItem (Item.mk "a2")) cex6 := by
  have r1 : Reach cexWorld cexOpts cex1 :=
    Reach.next Reach.init (Step.ostart initState rfl)
  have r2 : Reach cexWorld cexOpts cex2 :=
    Reach.next r1 (Step.ofirst cex1 rfl)
  have r3 : Reach cexWorld cexOpts cex3 :=
    Reach.next r2 (Step.admitPre cex2 [] [(2, TaskPC.queued none)] 1 cexList1
      (by decide) (by decide) (by decide))
  have r4 : Reach cexWorld cexOpts cex4 :=
    Reach.next r3 (Step.admitFetch cex3
      [(1, TaskPC.awaitingItem cexList1 cexItems)] [] 2
      (by decide) (by decide) (by decide))
  have r5 : Reach cexWorld cexOpts cex5 :=
    Reach.next r4 (Step.listResume cex4
      [(1, TaskPC.awaitingItem cexList1 cexItems)] [] 2 (by decide))
  refine ⟨r5, by decide, ?_⟩
  have h6 : Step cexWorld cexOpts cex5
      (applyItemResume cexWorld cexOpts cex5 [] [(2, TaskPC.finished)] 1
        cexList1 cexItems).2 cex6 :=
    Step.itemResume cex5 [] [(2, TaskPC.finished)] 1 cexList1 cexItems
      (by decide)
  have hev : (applyItemResume cexWorld cexOpts cex5 [] [(2, TaskPC.finished)]
      1 cexList1 cexItems).2 = Ev.fetchItem (Item.mk "a2") := by decide
  rw [hev] at h6
  exact h6

/-- On the fatal nothing-to-scrape condition, the orchestrator continuation
returns no stats. -/
theorem afterFirstPage_early (w : World) (o : ListingScraperOptions)
    (s : MState) (h : earlyExitRun w o) :
    (afterFirstPage w o s).orch = OrchPC.returned none := by
  by_cases hq : quotaList (w.listResp 1) = true
  · simp [afterFirstPage, firstPageResult, hq]
  · cases hr : w.listResp 1 with
    | none => simp [afterFirstPage, firstPageResult, hq, hr]
    | some lst =>
      rw [hr] at hq
      rcases h with h | h
      · rw [show firstPageResult w = some lst from by
          simp [firstPageResult, hq, hr]] at h
        cases h
      · rw [show firstPageResult w = some lst from by
          simp [firstPageResult, hq, hr]] at h
        simp [afterFirstPage, firstPageResult, hq, hr, h]

/-- Off the fatal condition, the orchestrator continuation proceeds to await
the page tasks. -/
theorem afterFirstPage_not_early (w : World) (o : ListingScraperOptions)
    (s : MState) (h : ¬ earlyExitRun w o) :
    (afterFirstPage w o s).orch = OrchPC.awaitAll := by
  by_cases hq : quotaList (w.listResp 1) = true
  · exact absurd (Or.inl (by simp [firstPageResult, hq])) h
  · cases hr : w.listResp 1 with
    | none => exact absurd (Or.inl (by simp [firstPageResult, hq, hr])) h
    | some lst =>
      rw [hr] at hq
      have hfp : firstPageResult w = some lst := by
        simp [firstPageResult, hq, hr]
      by_cases htp : clampedTotal o (some lst) = 0
      · exact absurd (Or.inr (by rw [hfp]; exact htp)) h
      · simp [afterFirstPage, firstPageResult, hq, hr, htp]

/-- Every machine step preserves the return-value invariant. -/
theorem retInv_step (w : World) (o : ListingScraperOptions) {s s' : MState}
    {ev : Ev} (hs : Step w o s ev s') (ih : RetInv w o s) : RetInv w o s' := by
  cases hs with
  | ostart h1 =>
    refine ⟨fun h3 => ?_, fun st h3 => ?_, fun h3 => ?_⟩ <;> cases h3
  | ofirst h1 =>
    by_cases he : earlyExitRun w o
    · have h2 := afterFirstPage_early w o s he
      refine ⟨fun _ => he, fun st h3 => ?_, fun h3 => ?_⟩
      · rw [h2] at h3; cases h3
      · rw [h2] at h3; cases h3
    · have h2 := afterFirstPage_not_early w o s he
      refine ⟨fun h3 => ?_, fun st h3 => he, fun h3 => he⟩
      rw [h2] at h3; cases h3
  | storeResolve h1 =>
    obtain ⟨-, horc, -, -, -⟩ := applyStore_fields w s
    exact ⟨fun h3 => ih.1 (horc ▸ h3), fun st h3 => ih.2.1 st (horc ▸ h3),
      fun h3 => ih.2.2 (horc ▸ h3)⟩
  | admitDone pre post p pf htk hd hs2 => exact ih
  | admitFetch pre post p htk hd hs2 => exact ih
  | admitPre pre post p lst htk hd hs2 =>
    obtain ⟨-, horc, -, -, -, -, -⟩ := applyAdmitPre_fields o s pre post p lst
    exact ⟨fun h3 => ih.1 (horc ▸ h3), fun st h3 => ih.2.1 st (horc ▸ h3),
      fun h3 => ih.2.2 (horc ▸ h3)⟩
  | listResume pre post p htk =>
    obtain ⟨-, horc, -, -, -, -⟩ := applyListResume_fields w o s pre post p
    exact ⟨fun h3 => ih.1 (horc ▸ h3), fun st h3 => ih.2.1 st (horc ▸ h3),
      fun h3 => ih.2.2 (horc ▸ h3)⟩
  | itemResume pre post p lst rem htk =>
    obtain ⟨-, horc, -, -, -, -⟩ := applyItemResume_fields w o s pre post p lst rem
    exact ⟨fun h3 => ih.1 (horc ▸ h3), fun st h3 => ih.2.1 st (horc ▸ h3),
      fun h3 => ih.2.2 (horc ▸ h3)⟩
  | writeResume pre post p lst rem htk =>
    obtain ⟨-, horc, -, -, -, -, -⟩ := applyWriteResume_fields o s pre post p lst rem
    exact ⟨fun h3 => ih.1 (horc ▸ h3), fun st h3 => ih.2.1 st (horc ▸ h3),
      fun h3 => ih.2.2 (horc ▸ h3)⟩
  | oreturn h1 hall =>
    refine ⟨fun h3 => ?_, fun st h3 => ih.2.2 h1, fun h3 => ih.2.2 h1⟩
    cases h3

/-- The return-value invariant holds in every reachable state. -/
theorem retInv_reach (w : World) (o : ListingScraperOptions) (s : MState)
    (h : Reach w o s) : RetInv w o s := by
  induction h with
  | init =>
    refine ⟨fun h3 => ?_, fun st h3 => ?_, fun h3 => ?_⟩ <;> cases h3
  | next hr hs ih => exact retInv_step w o hs ih

/-- A reachable state against the all-failing world: page 1 fetched (and
failed), the early return taken. -/
theorem reach_failTerm : Reach trivialWorld {} failTerm :=
  Reach.next (Reach.next Reach.init (Step.ostart initState rfl))
    (Step.ofirst cex1 rfl)

/-- C2 (amended): `scrapeStart` never throws, and it returns the `RunStats`
snapshot exactly when the run passes the first-page check; on the fatal
nothing-to-scrape start condition — first page null (transport failure or a
swallowed quota-exceeded 402) or zero clamped total pages — it returns
`undefined` (no stats), the terminal error being surfaced only through the
error slot and the logs. -/
theorem scrapeStart_return_value (w : World) (o : ListingScraperOptions)
    (s : MState) (r : Option Stats) (hr : Reach w o s)
    (h : s.orch = OrchPC.returned r) :
    (r = none ↔
      (firstPageResult w = none ∨ clampedTotal o (firstPageResult w) = 0)) := by
  have hi := retInv_reach w o s hr
  constructor
  · intro hn
    exact hi.1 (by rw [← hn]; exact h)
  · intro he
    cases r with
    | none => rfl
    | some st => exact absurd he (hi.2.1 st h)

/-- Witness for `scrapeStart_return_value` at the concrete failing run. -/
theorem scrapeStart_return_value_witness :
    Reach trivialWorld {} failTerm ∧
    failTerm.orch = OrchPC.returned none ∧
    ((none : Option Stats) = none ↔
      (firstPageResult trivialWorld = none ∨
        clampedTotal ({} : ListingScraperOptions)
          (firstPageResult trivialWorld) = 0)) :=
  ⟨reach_failTerm, by decide,
    scrapeStart_return_value trivialWorld {} failTerm none reach_failTerm
      (by decide)⟩

/-- C2 counterexample: a complete run (first page fetch resolves null) whose
`scrapeStart` returns no stats snapshot at all — refuting the claim that a
`RunStats` snapshot is returned to the caller on every run, terminal
failures included. -/
theorem scrapeStart_no_stats_cex :
    Reach trivialWorld {} failTerm ∧
    trivialWorld.listResp 1 = none ∧
    failTerm.orch = OrchPC.returned none :=
  ⟨reach_failTerm, rfl, by decide⟩

/-- `bumpPages` leaves the item counters alone and counts the page attempt
unconditionally. -/
theorem bumpPages_fields (r : Option ApiListResponse) (st : Stats) :
    (bumpPages r st).items = st.items ∧
    (bumpPages r st).itemsSuccess = st.itemsSuccess ∧
    (bumpPages r st).pages = st.pages + 1 := by
  simp only [bumpPages]
  split <;> simp

/-- On a nothing-to-scrape run, the continuation after page 1 takes the
early return: it counts the page-1 attempt, sets the terminal flag, and
returns no stats. -/
theorem afterFirstPage_noscrape (w : World) (o : ListingScraperOptions)
    (s : MState) (hw : NoScrapeCond w) :
    afterFirstPage w o s =
      { s with
        stats := bumpPages (w.listResp 1) s.stats
        done := true
        orch := OrchPC.returned none } := by
  rcases hw with hw | ⟨r0, hr0, h402, htp⟩
  · have hq : quotaList (none : Option ApiListResponse) = false := rfl
    simp [afterFirstPage, firstPageResult, hq, hw]
  · have hq : quotaList (some r0) = false := by
      simp [quotaList, h402]
    have htp0 : clampedTotal o (some r0) = 0 := by
      cases hm : o.maxPages <;> simp [clampedTotal, htp, hm]
    simp [afterFirstPage, firstPageResult, hq, hr0, htp0]

/-- Every machine step of a nothing-to-scrape run preserves its invariant. -/
theorem noScrapeInv_step (w : World) (o : ListingScraperOptions)
    (hw : NoScrapeCond w) {s s' : MState} {ev : Ev} (hs : Step w o s ev s')
    (ih : NoScrapeInv s) : NoScrapeInv s' := by
  cases hs with
  | ostart h1 =>
    exact ⟨ih.tasksNil, ih.itemsZero, ih.itemsSuccessZero,
      (fun h3 => nomatch h3), (fun _ => ih.pagesStart h1),
      (fun r h3 => nomatch h3), (fun h3 => nomatch h3)⟩
  | ofirst h1 =>
    rw [afterFirstPage_noscrape w o s hw]
    obtain ⟨hbi, hbs, hbp⟩ := bumpPages_fields (w.listResp 1) s.stats
    refine ⟨ih.tasksNil, ?_, ?_, (fun h3 => nomatch h3),
      (fun h3 => nomatch h3), ?_, (fun h3 => nomatch h3)⟩
    · rw [show ({ s with
          stats := bumpPages (w.listResp 1) s.stats
          done := true
          orch := OrchPC.returned none } : MState).stats
          = bumpPages (w.listResp 1) s.stats from rfl, hbi]
      exact ih.itemsZero
    · rw [show ({ s with
          stats := bumpPages (w.listResp 1) s.stats
          done := true
          orch := OrchPC.returned none } : MState).stats
          = bumpPages (w.listResp 1) s.stats from rfl, hbs]
      exact ih.itemsSuccessZero
    · intro r h3
      have h4 : OrchPC.returned none = OrchPC.returned r := h3
      cases h4
      refine ⟨rfl, ?_⟩
      rw [show ({ s with
          stats := bumpPages (w.listResp 1) s.stats
          done := true
          orch := OrchPC.returned none } : MState).stats
          = bumpPages (w.listResp 1) s.stats from rfl, hbp,
        ih.pagesAwait h1]
  | storeResolve h1 =>
    obtain ⟨-, horc, hst, -, ht⟩ := applyStore_fields w s
    exact ⟨ht ▸ ih.tasksNil, hst ▸ ih.itemsZero, hst ▸ ih.itemsSuccessZero,
      fun h3 => hst ▸ ih.pagesStart (horc ▸ h3),
      fun h3 => hst ▸ ih.pagesAwait (horc ▸ h3),
      fun r h3 => ⟨(ih.ret r (horc ▸ h3)).1, hst ▸ (ih.ret r (horc ▸ h3)).2⟩,
      fun h3 => ih.notAwaitAll (horc ▸ h3)⟩
  | admitDone pre post p pf htk hd hs2 =>
    have h0 := ih.tasksNil
    rw [htk] at h0
    simp at h0
  | admitFetch pre post p htk hd hs2 =>
    have h0 := ih.tasksNil
    rw [htk] at h0
    simp at h0
  | admitPre pre post p lst htk hd hs2 =>
    have h0 := ih.tasksNil
    rw [htk] at h0
    simp at h0
  | listResume pre post p htk =>
    have h0 := ih.tasksNil
    rw [htk] at h0
    simp at h0
  | itemResume pre post p lst rem htk =>
    have h0 := ih.tasksNil
    rw [htk] at h0
    simp at h0
  | writeResume pre post p lst rem htk =>
    have h0 := ih.tasksNil
    rw [htk] at h0
    simp at h0
  | oreturn h1 hall => exact absurd h1 ih.notAwaitAll

/-- The nothing-to-scrape invariant holds in every reachable state of such a
run. -/
theorem noScrapeInv_reach (w : World) (o : ListingScraperOptions)
    (hw : NoScrapeCond w) (s : MState) (h : Reach w o s) : NoScrapeInv s := by
  induction h with
  | init =>
    exact ⟨rfl, rfl, rfl, (fun _ => rfl), (fun h3 => nomatch h3),
      (fun r h3 => nomatch h3), (fun h3 => nomatch h3)⟩
  | next hr hs ih => exact noScrapeInv_step w o hw hs ih

/-- C3 (amended): when the page-1 fetch resolves to null, or reports a zero
total page count without a quota signal, no page task is ever scheduled, no
item-processing step runs and no detail fetch is ever issued, and the run
ends returning no stats snapshot — while its internal stats count the page-1
attempt: one page attempted, zero items attempted. -/
theorem nothing_to_scrape_start (w : World) (o : ListingScraperOptions)
    (s : MState) (hw : NoScrapeCond w) (hr : Reach w o s) :
    s.tasks = [] ∧ s.stats.items = 0 ∧ s.stats.itemsSuccess = 0 ∧
    (∀ ev s' i, Step w o s ev s' → ev ≠ Ev.fetchItem i) ∧
    (∀ r, s.orch = OrchPC.returned r → r = none ∧ s.stats.pages = 1) := by
  have hi := noScrapeInv_reach w o hw s hr
  refine ⟨hi.tasksNil, hi.itemsZero, hi.itemsSuccessZero, ?_, hi.ret⟩
  intro ev s' i hs
  cases hs with
  | ostart h1 => simp
  | ofirst h1 => simp
  | storeResolve h1 => simp
  | admitDone pre post p pf htk hd hs2 =>
    have h0 := hi.tasksNil
    rw [htk] at h0
    simp at h0
  | admitFetch pre post p htk hd hs2 =>
    have h0 := hi.tasksNil
    rw [htk] at h0
    simp at h0
  | admitPre pre post p lst htk hd hs2 =>
    have h0 := hi.tasksNil
    rw [htk] at h0
    simp at h0
  | listResume pre post p htk =>
    have h0 := hi.tasksNil
    rw [htk] at h0
    simp at h0
  | itemResume pre post p lst rem htk =>
    have h0 := hi.tasksNil
    rw [htk] at h0
    simp at h0
  | writeResume pre post p lst rem htk =>
    have h0 := hi.tasksNil
    rw [htk] at h0
    simp at h0
  | oreturn h1 hall => simp

/-- Witness for `nothing_to_scrape_start` at the concrete failing run. -/
theorem nothing_to_scrape_start_witness :
    NoScrapeCond trivialWorld ∧ Reach trivialWorld {} failTerm ∧
    (failTerm.tasks = [] ∧ failTerm.stats.items = 0 ∧
     failTerm.stats.itemsSuccess = 0 ∧
     (∀ ev s' i, Step trivialWorld {} failTerm ev s' →
       ev ≠ Ev.fetchItem i) ∧
     (∀ r, failTerm.orch = OrchPC.returned r →
       r = none ∧ failTerm.stats.pages = 1)) :=
  ⟨Or.inl rfl, reach_failTerm,
    nothing_to_scrape_start trivialWorld {} failTerm (Or.inl rfl)
      reach_failTerm⟩

/-- C3 counterexample: on the run whose page-1 fetch resolves to null, the
final stats show one page attempted, not zero — `fetchPage` counts the
attempt even for a null result — and no stats are returned at all. -/
theorem zero_pages_cex :
    Reach trivialWorld {} failTerm ∧
    trivialWorld.listResp 1 = none ∧
    failTerm.orch = OrchPC.returned none ∧
    failTerm.stats.pages = 1 ∧
    failTerm.stats.items = 0 :=
  ⟨reach_failTerm, rfl, by decide, by decide, by decide⟩

/-- When tasks exist, the orchestrator is past its prelude. -/
theorem orch_of_tasks {s : MState} (hb : BaseInv s) (hne : s.tasks ≠ []) :
    s.orch = OrchPC.awaitAll ∨ ∃ rr, s.orch = OrchPC.returned rr := by
  cases horch : s.orch with
  | start => exact absurd (hb (Or.inl horch)).2.2 hne
  | awaitFirst => exact absurd (hb (Or.inr horch)).2.2 hne
  | awaitAll => exact Or.inl rfl
  | returned rr => exact Or.inr ⟨rr, rfl⟩

/-- The submission loop schedules exactly the clamped number of pages. -/
theorem scheduleTasks_length (lst : ApiListResponse) (tp : Nat)
    (h : 0 < tp) : (scheduleTasks lst tp).length = tp := by
  simp [scheduleTasks]
  omega

/-- The scheduled pages are exactly `1..tp`. -/
theorem scheduleTasks_map_fst (lst : ApiListResponse) (tp : Nat)
    (h : 0 < tp) : (scheduleTasks lst tp).map Prod.fst = List.range' 1 tp := by
  cases tp with
  | zero => cases h
  | succ n =>
    rw [List.range'_succ]
    simp [scheduleTasks, List.map_map, Function.comp_def]

/-- No freshly scheduled task has issued its fetch yet. -/
theorem scheduleTasks_countP (lst : ApiListResponse) (tp : Nat) :
    (scheduleTasks lst tp).countP countsFetched = 0 := by
  rw [List.countP_eq_zero]
  intro a ha
  rcases List.mem_cons.1 ha with rfl | hmem
  · simp [countsFetched, isQueued]
  · rcases List.mem_map.1 hmem with ⟨p, hp, rfl⟩
    simp [countsFetched, isQueued]

/-- A scheduled queued task holds the prefetched list iff it is page 1. -/
theorem scheduleTasks_queued (lst : ApiListResponse) (tp : Nat) (p : Nat)
    (pf : Option ApiListResponse)
    (h : (p, TaskPC.queued pf) ∈ scheduleTasks lst tp) :
    (p = 1 ↔ pf.isSome = true) := by
  rcases List.mem_cons.1 h with he | hmem
  · obtain ⟨h1, h2⟩ : p = 1 ∧ pf = some lst := by
      simpa using he
    subst h1
    subst h2
    simp
  · rcases List.mem_map.1 hmem with ⟨p', hp', he⟩
    obtain ⟨h1, h2⟩ : p' = p ∧ pf = none := by
      constructor
      · exact congrArg Prod.fst he
      · have := congrArg Prod.snd he
        simpa using this.symm
    have hge := (List.mem_range'_1.1 hp').1
    subst h1
    subst h2
    simp
    omega

/-- The `maxPages` clamp computes the min of the reported total and a
positive configured ceiling. -/
theorem clampedTotal_min (o : ListingScraperOptions) (r1 : ApiListResponse)
    (T m : Nat) (hT : r1.totalPages = some T) (hm : o.maxPages = some m)
    (hm0 : 0 < m) : clampedTotal o (some r1) = min T m := by
  simp [clampedTotal, hT, hm]
  split_ifs with h <;> omega

/-- Pages `2..tp` number `tp - 1`. -/
theorem countP_range'_ge2 (tp : Nat) :
    (List.range' 1 tp).countP (fun x => decide (2 ≤ x)) = tp - 1 := by
  cases tp with
  | zero => simp
  | succ n =>
    rw [List.range'_succ, List.countP_cons]
    have hl : (List.range' 2 n).length = n := by simp
    have h2 : (List.range' 2 n).countP (fun x => decide (2 ≤ x))
        = (List.range' 2 n).length := by
      rw [List.countP_eq_length]
      intro a ha
      simpa using (List.mem_range'_1.1 ha).1
    simp [h2, hl]

/-- The item-phase entry never leaves a task queued. -/
theorem beginItems_pc (o : ListingScraperOptions) (lst : ApiListResponse)
    (st : Stats) : isQueued (beginItems o lst st).2.1 = false := by
  cases hel : lst.elements with
  | none => simp [beginItems, hel, isQueued]
  | some es =>
    by_cases hd : o.scrapeDetails = true
    · cases es <;> simp [beginItems, hel, hd, isQueued]
    · rcases hrn : runNoDetailItems lst st es with ⟨st1, r⟩
      cases r <;> simp [beginItems, hel, hd, hrn, isQueued]

/-- `applyAdmitPre` moves the task out of the queued state. -/
theorem applyAdmitPre_tasks_nq (o : ListingScraperOptions) (s : MState)
    (pre post : List (Nat × TaskPC)) (p : Nat) (lst : ApiListResponse) :
    ∃ pc, isQueued pc = false ∧
      (applyAdmitPre o s pre post p lst).1.tasks = pre ++ (p, pc) :: post := by
  have h := beginItems_pc o lst s.stats
  rcases hb : beginItems o lst s.stats with ⟨st, pc, ev⟩
  rw [hb] at h
  exact ⟨pc, h, by simp [applyAdmitPre, hb, setTask]⟩

/-- `applyListResume` never re-queues the task. -/
theorem applyListResume_tasks_nq (w : World) (o : ListingScraperOptions)
    (s : MState) (pre post : List (Nat × TaskPC)) (p : Nat) :
    ∃ pc, isQueued pc = false ∧
      (applyListResume w o s pre post p).1.tasks = pre ++ (p, pc) :: post := by
  by_cases hq : quotaList (w.listResp p) = true
  · exact ⟨TaskPC.finished, rfl, by simp [applyListResume, hq, setTask]⟩
  · cases hd : s.done with
    | true =>
      exact ⟨TaskPC.finished, rfl, by simp [applyListResume, hq, hd, setTask]⟩
    | false =>
      cases hr : w.listResp p with
      | none =>
        exact ⟨TaskPC.finished, rfl,
          by simp [applyListResume, hq, hd, hr, setTask]⟩
      | some lst =>
        rw [hr] at hq
        have h := beginItems_pc o lst (bumpPages (some lst) s.stats)
        rcases hb : beginItems o lst (bumpPages (some lst) s.stats)
          with ⟨st2, pc, ev⟩
        rw [hb] at h
        exact ⟨pc, h, by simp [applyListResume, hq, hd, hr, hb, setTask]⟩

/-- `applyItemResume` never re-queues the task. -/
theorem applyItemResume_tasks_nq (w : World) (o : ListingScraperOptions)
    (s : MState) (pre post : List (Nat × TaskPC)) (p : Nat)
    (lst : ApiListResponse) (rem : List Item) :
    ∃ pc, isQueued pc = false ∧
      (applyItemResume w o s pre post p lst rem).1.tasks =
        pre ++ (p, pc) :: post := by
  cases rem with
  | nil => exact ⟨TaskPC.finished, rfl, by simp [applyItemResume, setTask]⟩
  | cons x rest =>
    by_cases hq : quotaItem (w.itemResp x) = true
    · exact ⟨TaskPC.finished, rfl, by simp [applyItemResume, hq, setTask]⟩
    · by_cases hsucc : itemSuccess (w.itemResp x) = true
      · exact ⟨TaskPC.awaitingWrite lst rest, rfl,
          by simp [applyItemResume, hq, hsucc, setTask]⟩
      · cases rest with
        | nil =>
          exact ⟨TaskPC.finished, rfl,
            by simp [applyItemResume, hq, hsucc, setTask]⟩
        | cons j js =>
          exact ⟨TaskPC.awaitingItem lst (j :: js), rfl,
            by simp [applyItemResume, hq, hsucc, setTask]⟩

/-- `applyWriteResume` never re-queues the task. -/
theorem applyWriteResume_tasks_nq (o : ListingScraperOptions) (s : MState)
    (pre post : List (Nat × TaskPC)) (p : Nat) (lst : ApiListResponse)
    (rem : List Item) :
    ∃ pc, isQueued pc = false ∧
      (applyWriteResume o s pre post p lst rem).1.tasks =
        pre ++ (p, pc) :: post := by
  by_cases hd : o.scrapeDetails = true
  · cases rem with
    | nil => exact ⟨TaskPC.finished, rfl, by simp [applyWriteResume, hd, setTask]⟩
    | cons j js =>
      exact ⟨TaskPC.awaitingItem lst (j :: js), rfl,
        by simp [applyWriteResume, hd, setTask]⟩
  · rcases hrn : runNoDetailItems lst s.stats rem with ⟨st, r⟩
    cases r with
    | none =>
      exact ⟨TaskPC.finished, rfl,
        by simp [applyWriteResume, hd, hrn, setTask]⟩
    | some rest =>
      exact ⟨TaskPC.awaitingWrite lst rest, rfl,
        by simp [applyWriteResume, hd, hrn, setTask]⟩

/-- Without a quota signal, a list-fetch resume leaves the terminal flag
alone. -/
theorem applyListResume_done (w : World) (o : ListingScraperOptions)
    (s : MState) (pre post : List (Nat × TaskPC)) (p : Nat)
    (hq : quotaList (w.listResp p) = false) :
    (applyListResume w o s pre post p).1.done = s.done := by
  cases hd : s.done with
  | true => simp [applyListResume, hd]
  | false =>
    cases hr : w.listResp p with
    | none => simp [applyListResume, hq, hd, hr, quotaList]
    | some lst =>
      rw [hr] at hq
      rcases hb : beginItems o lst (bumpPages (some lst) s.stats)
        with ⟨st2, pc, ev⟩
      simp [applyListResume, hq, hd, hr, hb]

/-- Without quota signals, an item-fetch resume leaves the terminal flag
alone. -/
theorem applyItemResume_done (w : World) (o : ListingScraperOptions)
    (s : MState) (pre post : List (Nat × TaskPC)) (p : Nat)
    (lst : ApiListResponse) (rem : List Item)
    (hc : ∀ it, quotaItem (w.itemResp it) = false) :
    (applyItemResume w o s pre post p lst rem).1.done = s.done := by
  cases rem with
  | nil => simp [applyItemResume, setTask]
  | cons x rest =>
    have hq := hc x
    by_cases hsucc : itemSuccess (w.itemResp x) = true
    · simp [applyItemResume, hq, hsucc, setTask]
    · cases rest <;> simp [applyItemResume, hq, hsucc, setTask]

/-- A clean first page with a positive clamped total schedules the page
tasks. -/
theorem afterFirstPage_clean (w : World) (o : ListingScraperOptions)
    (s : MState) (r1 : ApiListResponse) (tp : Nat)
    (hq1 : quotaList (some r1) = false) (h1 : w.listResp 1 = some r1)
    (htp : clampedTotal o (some r1) = tp) (htp0 : 0 < tp) :
    afterFirstPage w o s =
      { s with
        stats := { bumpPages (w.listResp 1) s.stats with
          pages := 1
          pagesSuccess := 1 }
        conc := jsConc r1.requestsConcurrency
        storePending := effOutput o = OutputType.sqlite
        tasks := scheduleTasks r1 tp
        orch := OrchPC.awaitAll } := by
  have hne : tp ≠ 0 := Nat.pos_iff_ne_zero.mp htp0
  simp [afterFirstPage, firstPageResult, h1, hq1, htp, hne]

/-- Generic preservation of the clean-run invariant by a task step that
does not issue a list fetch: the task leaves its non-finished pc for a
non-queued pc, every other field relevant to the invariant staying put. -/
theorem cleanInv_task_step (tp : Nat) (s s' : MState)
    (pre post : List (Nat × TaskPC)) (p : Nat) (q pc : TaskPC)
    (htk : s.tasks = pre ++ (p, q) :: post)
    (htasks' : s'.tasks = pre ++ (p, pc) :: post)
    (hfc : s'.fetchCalls = s.fetchCalls)
    (horch : s'.orch = s.orch)
    (hdone : s'.done = s.done)
    (hqv : countsFetched (p, pc) = countsFetched (p, q))
    (hpcnq : isQueued pc = false)
    (hqnf : q ≠ TaskPC.finished)
    (ih : CleanInv tp s) : CleanInv tp s' := by
  refine ⟨?_, ?_, ?_, ?_, ?_, ?_⟩
  · rw [hdone]; exact ih.doneFalse
  · intro h3
    rw [horch] at h3
    have h4 := (ih.startCase h3).2
    rw [htk] at h4
    simp at h4
  · intro h3
    rw [horch] at h3
    have h4 := (ih.awaitFirstCase h3).2
    rw [htk] at h4
    simp at h4
  · intro h3
    rw [horch] at h3
    obtain ⟨hm, hcnt⟩ := ih.pagesShape h3
    constructor
    · have he : (pre ++ (p, pc) :: post).map Prod.fst
          = (pre ++ (p, q) :: post).map Prod.fst := by simp
      rw [htasks', he, ← htk]
      exact hm
    · have he : (pre ++ (p, pc) :: post).countP countsFetched
          = (pre ++ (p, q) :: post).countP countsFetched := by
        simp [List.countP_append, List.countP_cons, hqv]
      rw [hfc, htasks', he, ← htk]
      exact hcnt
  · intro p' pf hmem
    rw [htasks'] at hmem
    rcases List.mem_append.1 hmem with hm1 | hm2
    · exact ih.queuedShape p' pf (by rw [htk]; exact List.mem_append.2 (Or.inl hm1))
    · rcases List.mem_cons.1 hm2 with he | hm3
      · have h5 : TaskPC.queued pf = pc := congrArg Prod.snd he
        rw [← h5] at hpcnq
        simp [isQueued] at hpcnq
      · exact ih.queuedShape p' pf
          (by rw [htk]
              exact List.mem_append.2 (Or.inr (List.mem_cons.2 (Or.inr hm3))))
  · intro rr h3 t ht
    rw [horch] at h3
    exact absurd (ih.retAll rr h3 (p, q) (by rw [htk]; simp)) hqnf

/-- Every machine step of a clean run preserves the clean-run invariant. -/
theorem cleanInv_step (w : World) (o : ListingScraperOptions)
    (r1 : ApiListResponse) (tp : Nat) (hc : CleanWorld w)
    (h1 : w.listResp 1 = some r1) (htp : clampedTotal o (some r1) = tp)
    (htp0 : 0 < tp) {s s' : MState} {ev : Ev} (hs : Step w o s ev s')
    (hb : BaseInv s) (ih : CleanInv tp s) : CleanInv tp s' := by
  cases hs with
  | ostart h1o =>
    obtain ⟨hf0, ht0⟩ := ih.startCase h1o
    refine ⟨ih.doneFalse, ?_, ?_, ?_, ?_, ?_⟩
    · intro h3; cases h3
    · intro _; exact ⟨by rw [hf0], ht0⟩
    · intro h3; rcases h3 with h3 | ⟨rr, h3⟩ <;> cases h3
    · intro p' pf hmem; exact ih.queuedShape p' pf hmem
    · intro rr h3; cases h3
  | ofirst h1o =>
    obtain ⟨hf1, ht1⟩ := ih.awaitFirstCase h1o
    have hq1 : quotaList (some r1) = false := by rw [← h1]; exact hc.1 1
    rw [afterFirstPage_clean w o s r1 tp hq1 h1 htp htp0]
    refine ⟨ih.doneFalse, ?_, ?_, ?_, ?_, ?_⟩
    · intro h3; cases h3
    · intro h3; cases h3
    · intro _
      refine ⟨scheduleTasks_map_fst r1 tp htp0, ?_⟩
      rw [scheduleTasks_countP r1 tp, hf1]
    · intro p' pf hmem
      exact scheduleTasks_queued r1 tp p' pf hmem
    · intro rr h3; cases h3
  | storeResolve hsp =>
    have hst : applyStore w s = { s with storePending := false } := by
      simp [applyStore, hc.2.2]
    rw [hst]
    exact ⟨ih.doneFalse, ih.startCase, ih.awaitFirstCase, ih.pagesShape,
      ih.queuedShape, ih.retAll⟩
  | admitDone pre post p pf htk hd hs2 =>
    rw [ih.doneFalse] at hd
    cases hd
  | admitFetch pre post p htk hd hs2 =>
    have hmemq : (p, TaskPC.queued none) ∈ s.tasks := by rw [htk]; simp
    have hp1 : ¬ p = 1 := by
      intro hp
      have := (ih.queuedShape p none hmemq).1 hp
      simp at this
    have hne : s.tasks ≠ [] := by simp [htk]
    have horch := orch_of_tasks hb hne
    obtain ⟨hm, hcnt⟩ := ih.pagesShape horch
    have hp2 : 2 ≤ p := by
      have hmem1 : p ∈ s.tasks.map Prod.fst := List.mem_map_of_mem Prod.fst hmemq
      rw [hm] at hmem1
      have := (List.mem_range'_1.1 hmem1).1
      omega
    refine ⟨ih.doneFalse, ?_, ?_, ?_, ?_, ?_⟩
    · intro h3
      have h4 := (ih.startCase h3).2
      rw [htk] at h4
      simp at h4
    · intro h3
      have h4 := (ih.awaitFirstCase h3).2
      rw [htk] at h4
      simp at h4
    · intro h3
      obtain ⟨hm2, hcnt2⟩ := ih.pagesShape h3
      constructor
      · have he : (pre ++ (p, TaskPC.awaitingList) :: post).map Prod.fst
            = (pre ++ (p, TaskPC.queued none) :: post).map Prod.fst := by simp
        show (pre ++ (p, TaskPC.awaitingList) :: post).map Prod.fst = _
        rw [he, ← htk]
        exact hm2
      · show s.fetchCalls + 1
          = 1 + (pre ++ (p, TaskPC.awaitingList) :: post).countP countsFetched
        rw [htk] at hcnt2
        simp only [List.countP_append, List.countP_cons] at hcnt2 ⊢
        simp only [countsFetched, isQueued] at hcnt2 ⊢
        simp only [hp2] at hcnt2 ⊢
        simp at hcnt2 ⊢
        omega
    · intro p' pf hmem
      simp only [setTask] at hmem
      rcases List.mem_append.1 hmem with hm1 | hm2
      · exact ih.queuedShape p' pf (by rw [htk]; exact List.mem_append.2 (Or.inl hm1))
      · rcases List.mem_cons.1 hm2 with he | hm3
        · have h5 : TaskPC.queued pf = TaskPC.awaitingList :=
            congrArg Prod.snd he
          cases h5
        · exact ih.queuedShape p' pf
            (by rw [htk]
                exact List.mem_append.2 (Or.inr (List.mem_cons.2 (Or.inr hm3))))
    · intro rr h3 t ht
      exact absurd (ih.retAll rr h3 (p, TaskPC.queued none) hmemq) (by simp)
  | admitPre pre post p lst htk hd hs2 =>
    obtain ⟨pc, hpcnq, htasks'⟩ := applyAdmitPre_tasks_nq o s pre post p lst
    obtain ⟨hcq, horc, hdn, hfq, hspq, -⟩ := applyAdmitPre_fields o s pre post p lst
    have hmemq : (p, TaskPC.queued (some lst)) ∈ s.tasks := by rw [htk]; simp
    have hp1 : p = 1 := by
      have := (ih.queuedShape p (some lst) hmemq).2 (by simp)
      exact this
    refine cleanInv_task_step tp s _ pre post p (TaskPC.queued (some lst)) pc
      htk htasks' hfq horc hdn ?_ hpcnq (by simp) ih
    subst hp1
    simp [countsFetched]
  | listResume pre post p htk =>
    obtain ⟨pc, hpcnq, htasks'⟩ := applyListResume_tasks_nq w o s pre post p
    obtain ⟨hcq, horc, hfq, hspq, -⟩ := applyListResume_fields w o s pre post p
    refine cleanInv_task_step tp s _ pre post p TaskPC.awaitingList pc
      htk htasks' hfq horc ?_ ?_ hpcnq (by simp) ih
    · exact applyListResume_done w o s pre post p (hc.1 p)
    · simp only [countsFetched, hpcnq]
      rfl
  | itemResume pre post p lst rem htk =>
    obtain ⟨pc, hpcnq, htasks'⟩ := applyItemResume_tasks_nq w o s pre post p lst rem
    obtain ⟨hcq, horc, hfq, hspq, -⟩ := applyItemResume_fields w o s pre post p lst rem
    refine cleanInv_task_step tp s _ pre post p (TaskPC.awaitingItem lst rem) pc
      htk htasks' hfq horc ?_ ?_ hpcnq (by simp) ih
    · exact applyItemResume_done w o s pre post p lst rem hc.2.1
    · simp only [countsFetched, hpcnq]
      rfl
  | writeResume pre post p lst rem htk =>
    obtain ⟨pc, hpcnq, htasks'⟩ := applyWriteResume_tasks_nq o s pre post p lst rem
    obtain ⟨hcq, horc, hdn, hfq, hspq, -⟩ := applyWriteResume_fields o s pre post p lst rem
    refine cleanInv_task_step tp s _ pre post p (TaskPC.awaitingWrite lst rem) pc
      htk htasks' hfq horc hdn ?_ hpcnq (by simp) ih
    simp only [countsFetched, hpcnq]
    rfl
  | oreturn h1o hall =>
    refine ⟨ih.doneFalse, ?_, ?_, ?_, ?_, ?_⟩
    · intro h3; cases h3
    · intro h3; cases h3
    · intro _; exact ih.pagesShape (Or.inl h1o)
    · intro p' pf hmem; exact ih.queuedShape p' pf hmem
    · intro rr h3 t ht; exact hall t ht

/-- A task step preserves the scheduled-page-count invariant. -/
theorem tasksLen_task_step (n : Nat) (s s' : MState)
    (pre post : List (Nat × TaskPC)) (p : Nat) (q pc : TaskPC)
    (htk : s.tasks = pre ++ (p, q) :: post)
    (htasks' : s'.tasks = pre ++ (p, pc) :: post)
    (horch : s'.orch = s.orch) (ih : TasksLenInv n s) : TasksLenInv n s' := by
  intro h3
  rw [horch] at h3
  have h4 := ih h3
  rw [htk] at h4
  rw [htasks']
  simpa using h4

/-- Every machine step preserves the scheduled-page-count invariant when the
first page succeeded with clamped total `n`. -/
theorem tasksLenInv_step (w : World) (o : ListingScraperOptions)
    (r1 : ApiListResponse) (n : Nat) (h1 : w.listResp 1 = some r1)
    (hq1 : quotaList (some r1) = false)
    (htp : clampedTotal o (some r1) = n) {s s' : MState} {ev : Ev}
    (hs : Step w o s ev s') (hb : BaseInv s) (ih : TasksLenInv n s) :
    TasksLenInv n s' := by
  cases hs with
  | ostart h1o =>
    intro h3
    rcases h3 with h3 | ⟨rr, h3⟩ <;> cases h3
  | ofirst h1o =>
    intro h3
    by_cases htp0 : 0 < n
    · rw [afterFirstPage_clean w o s r1 n hq1 h1 htp htp0]
      exact scheduleTasks_length r1 n htp0
    · have hn0 : n = 0 := by omega
      rw [hn0] at htp
      have h402 : r1.status ≠ some 402 := by
        intro hcontra
        rw [show quotaList (some r1) = true from by simp [quotaList, hcontra]]
          at hq1
        cases hq1
      have htp0' : r1.totalPages.getD 0 = 0 := by
        cases hm : o.maxPages with
        | none => simpa [clampedTotal, hm] using htp
        | some m =>
          simp [clampedTotal, hm] at htp
          split at htp
          · rename_i hcond
            exact absurd htp hcond.1
          · exact htp
      rw [afterFirstPage_noscrape w o s (Or.inr ⟨r1, h1, h402, htp0'⟩)]
      have ht0 := (hb (Or.inr h1o)).2.2
      show s.tasks.length = n
      rw [ht0, hn0]
      rfl
  | storeResolve hsp =>
    obtain ⟨-, horc, -, -, ht⟩ := applyStore_fields w s
    intro h3
    rw [horc] at h3
    rw [ht]
    exact ih h3
  | admitDone pre post p pf htk hd hs2 =>
    exact tasksLen_task_step n s _ pre post p _ TaskPC.finished htk rfl rfl ih
  | admitFetch pre post p htk hd hs2 =>
    exact tasksLen_task_step n s _ pre post p _ TaskPC.awaitingList htk rfl rfl ih
  | admitPre pre post p lst htk hd hs2 =>
    obtain ⟨pc, -, htasks'⟩ := applyAdmitPre_tasks_nq o s pre post p lst
    obtain ⟨-, horc, -, -, -, -⟩ := applyAdmitPre_fields o s pre post p lst
    exact tasksLen_task_step n s _ pre post p _ pc htk htasks' horc ih
  | listResume pre post p htk =>
    obtain ⟨pc, -, htasks'⟩ := applyListResume_tasks_nq w o s pre post p
    obtain ⟨-, horc, -, -, -⟩ := applyListResume_fields w o s pre post p
    exact tasksLen_task_step n s _ pre post p _ pc htk htasks' horc ih
  | itemResume pre post p lst rem htk =>
    obtain ⟨pc, -, htasks'⟩ := applyItemResume_tasks_nq w o s pre post p lst rem
    obtain ⟨-, horc, -, -, -⟩ := applyItemResume_fields w o s pre post p lst rem
    exact tasksLen_task_step n s _ pre post p _ pc htk htasks' horc ih
  | writeResume pre post p lst rem htk =>
    obtain ⟨pc, -, htasks'⟩ := applyWriteResume_tasks_nq o s pre post p lst rem
    obtain ⟨-, horc, -, -, -, -⟩ := applyWriteResume_fields o s pre post p lst rem
    exact tasksLen_task_step n s _ pre post p _ pc htk htasks' horc ih
  | oreturn h1o hall =>
    intro _
    exact ih (Or.inl h1o)

/-- The scheduled-page-count invariant holds in every reachable state. -/
theorem tasksLen_reach (w : World) (o : ListingScraperOptions)
    (r1 : ApiListResponse) (n : Nat) (h1 : w.listResp 1 = some r1)
    (hq1 : quotaList (some r1) = false)
    (htp : clampedTotal o (some r1) = n) (s : MState) (h : Reach w o s) :
    TasksLenInv n s := by
  induction h with
  | init =>
    intro h3
    rcases h3 with h3 | ⟨rr, h3⟩ <;> cases h3
  | next hr hs ih =>
    exact tasksLenInv_step w o r1 n h1 hq1 htp hs
      (baseInv_reach w o _ hr) ih

/-- The clean-run invariant holds in every reachable state of a clean run. -/
theorem cleanInv_reach (w : World) (o : ListingScraperOptions)
    (r1 : ApiListResponse) (tp : Nat) (hc : CleanWorld w)
    (h1 : w.listResp 1 = some r1) (htp : clampedTotal o (some r1) = tp)
    (htp0 : 0 < tp) (s : MState) (h : Reach w o s) : CleanInv tp s := by
  induction h with
  | init =>
    refine ⟨rfl, ?_, ?_, ?_, ?_, ?_⟩
    · intro _; exact ⟨rfl, rfl⟩
    · intro h3; cases h3
    · intro h3; rcases h3 with h3 | ⟨rr, h3⟩ <;> cases h3
    · intro p' pf hmem; cases hmem
    · intro rr h3; cases h3
  | next hr hs ih =>
    exact cleanInv_step w o r1 tp hc h1 htp htp0 hs
      (baseInv_reach w o _ hr) ih

/-- C6: when page 1 succeeds (no quota signal) reporting `totalPages = T`
and a positive `maxPages = m` is configured, the number of page tasks
scheduled equals `min T m` in every state past scheduling; in particular,
on a clean run with `T = 100` and `m = 5`, every complete run has issued
exactly 5 list fetches — 5 pages are ever fetched. -/
theorem pages_scheduled_clamped (w : World) (o : ListingScraperOptions)
    (r1 : ApiListResponse) (T m : Nat) (s : MState)
    (h1 : w.listResp 1 = some r1) (hq : r1.status ≠ some 402)
    (hT : r1.totalPages = some T) (hm : o.maxPages = some m) (hm0 : 0 < m)
    (hr : Reach w o s) :
    ((s.orch = OrchPC.awaitAll ∨ ∃ rr, s.orch = OrchPC.returned rr) →
      s.tasks.length = min T m) ∧
    (CleanWorld w → T = 100 → m = 5 →
      ∀ rr, s.orch = OrchPC.returned rr → s.fetchCalls = 5) := by
  have hq1 : quotaList (some r1) = false := by simp [quotaList, hq]
  have hmin := clampedTotal_min o r1 T m hT hm hm0
  constructor
  · exact tasksLen_reach w o r1 (min T m) h1 hq1 hmin s hr
  · intro hc h100 h5 rr hret
    subst h100
    subst h5
    have htp5 : clampedTotal o (some r1) = 5 := by rw [hmin]; decide
    have hinv := cleanInv_reach w o r1 5 hc h1 htp5 (by omega) s hr
    obtain ⟨hm2, hcnt⟩ := hinv.pagesShape (Or.inr ⟨rr, hret⟩)
    have hfin := hinv.retAll rr hret
    have hcongr : s.tasks.countP countsFetched
        = s.tasks.countP (fun t => decide (2 ≤ t.1)) := by
      apply List.countP_congr
      intro t ht
      have hf := hfin t ht
      simp [countsFetched, hf, isQueued]
    have hmap : s.tasks.countP (fun t => decide (2 ≤ t.1))
        = (s.tasks.map Prod.fst).countP (fun x => decide (2 ≤ x)) := by
      rw [List.countP_map]
      rfl
    rw [hcnt, hcongr, hmap, hm2, countP_range'_ge2]

/-- Witness for `pages_scheduled_clamped` at the initial state of the
scenario-D run. -/
theorem pages_scheduled_clamped_witness :
    c6World.listResp 1 = some c6r1 ∧
    c6r1.status ≠ some 402 ∧
    c6r1.totalPages = some 100 ∧
    c6Opts.maxPages = some 5 ∧
    0 < 5 ∧
    Reach c6World c6Opts initState ∧
    (((initState.orch = OrchPC.awaitAll ∨
        ∃ rr, initState.orch = OrchPC.returned rr) →
      initState.tasks.length = min 100 5) ∧
     (CleanWorld c6World → (100 : Nat) = 100 → (5 : Nat) = 5 →
      ∀ rr, initState.orch = OrchPC.returned rr →
        initState.fetchCalls = 5)) :=
  ⟨rfl, by decide, rfl, rfl, by decide, Reach.init,
    pages_scheduled_clamped c6World c6Opts c6r1 100 5 initState rfl
      (by decide) rfl rfl (by decide) Reach.init⟩
